import Mathlib

/-!
# Ponce: path-constraint log, branch-negation solver and flag negation

A shallow embedding of `src/callbacks.cpp` (`tritonize`, `triton_restart_engines`)
and `src/solver.cpp` (`solve_formula`, `negate_flag_condition`, `set_SMT_solution`).

Conventions.
* Addresses (`ea_t`), `size_t` and `triton::uint64` are 64-bit unsigned: a natural
  number reduced modulo `2 ^ 64` wherever the source converts into them.
* The symbolic engine and the debugger are external collaborators.  What they
  answer for one call is passed in as data (`TraceEnv`, the fields of `Triton.Api`);
  their stores are explicit state.
* Output through `msg`, colouring, comments and the snapshot engine do not touch
  the state modelled here and are left out, except where a claim is about them.
-/

/-! ## Part 1. Definitions -/

namespace Ponce

/-- Conversion into `ea_t` / `size_t` / `triton::uint64` (64-bit unsigned). -/
def toEa (x : Nat) : Nat := x % 2 ^ 64

/-- How a call of the embedded code ends: it returns a value, an `assert` fails
(the hosting process is aborted), a vector is indexed outside its bounds, or an
engine call throws. -/
inductive Outcome (α : Type) where
  | returned (v : α)
  | assertFailed
  | outOfBounds
  | thrown
deriving DecidableEq, Repr

/-- Modelled from the spec: the `PathConstraint` record of the plugin, declared in
`globals.hpp` (absent).  The constructor call in `tritonize` passes, in this order,
the id of the symbolic instruction pointer, the branch address, the taken address,
the not-taken address and the bound. -/
structure PathConstraint where
  conditionRipId : Nat
  conditionAddr : Nat
  takenAddr : Nat
  notTakenAddr : Nat
  bound : Nat
deriving DecidableEq, Repr

/-- The object `tritonize` allocates and keeps in `last_triton_instruction`. -/
structure TritonInst where
  address : Nat
  threadId : Nat
  opcodeSize : Nat
deriving DecidableEq, Repr

/-- Modelled from the spec: the fields of `ponce_runtime_status` (declared in
`globals.hpp`, absent) that `callbacks.cpp` reads and writes. -/
structure RuntimeStatus where
  runtimeTrigger : Bool
  last_triton_instruction : Option TritonInst
  is_something_tainted_or_symbolize : Bool
  tainted_functions_index : Nat
  total_number_traced_ins : Nat
  total_number_symbolic_ins : Nat
  total_number_symbolic_conditions : Nat
  current_trace_counter : Nat
  myPathConstraints : List PathConstraint
deriving DecidableEq, Repr

/-- Result of `api.processing(*tritonInst)`: accepted, rejected (returns false),
or a `triton::exceptions::Exception` is thrown. -/
inductive Processing where
  | ok
  | unsupported
  | exception
deriving DecidableEq, Repr

/-- What the decoder and the engine answer about the instruction at `pc`. -/
structure TraceEnv where
  /-- Value of `ins.size` after `decode_insn`. -/
  itemSize : Nat
  processing : Processing
  isTainted : Bool
  isSymbolized : Bool
  isBranch : Bool
  isConditionTaken : Bool
  /-- Value of `tritonInst->getNextAddress()`. -/
  nextAddress : Nat
  /-- Value of `tritonInst->operands[0].getImmediate().getValue()`. -/
  operand0Immediate : Nat
  /-- Value of `api.getSymbolicRegister(REG_XIP)->getId()`. -/
  ripId : Nat
  /-- Value of `get_current_thread()`. -/
  currentThread : Nat
deriving DecidableEq, Repr

/-- Value of `sizeof(opcodes)` for `unsigned char opcodes[15]`. -/
def OPCODES_SIZE : Nat := 15

/-- Lines 131-151 of `tritonize`: the counters of symbolic instructions and of
symbolic conditions. -/
def countSymbolic (st : RuntimeStatus) (env : TraceEnv) : RuntimeStatus :=
  if env.isTainted || env.isSymbolized then
    let st1 := { st with total_number_symbolic_ins := st.total_number_symbolic_ins + 1 }
    if env.isBranch then
      { st1 with total_number_symbolic_conditions := st1.total_number_symbolic_conditions + 1 }
    else st1
  else st

/-- Lines 153-167 of `tritonize`: a symbolized branch is appended to
`myPathConstraints` with `bound` the size of the log before the append. -/
def recordBranch (st : RuntimeStatus) (env : TraceEnv) (pc : Nat) : RuntimeStatus :=
  if env.isBranch && env.isSymbolized then
    let addr1 := toEa env.nextAddress
    let addr2 := toEa env.operand0Immediate
    let ripId := env.ripId
    if env.isConditionTaken then
      { st with myPathConstraints := st.myPathConstraints ++
          [PathConstraint.mk ripId pc addr2 addr1 st.myPathConstraints.length] }
    else
      { st with myPathConstraints := st.myPathConstraints ++
          [PathConstraint.mk ripId pc addr1 addr2 st.myPathConstraints.length] }
  else st

/-- The function `tritonize(pc, threadID)` of `callbacks.cpp`.  Returns the outcome
(0 instruction tritonized, 1 trigger is not activated, 2 other error) and the new
runtime status. -/
def tritonize (st : RuntimeStatus) (env : TraceEnv) (pc threadID : Nat) :
    Outcome Int × RuntimeStatus :=
  if !st.runtimeTrigger then (.returned 1, st)
  else
    let threadID := if threadID ≠ 0 then threadID else env.currentThread
    if pc = 0 then (.returned 2, st)
    else
      -- the previous instruction is deleted, a fresh one is allocated
      let st1 := { st with last_triton_instruction := some (TritonInst.mk 0 0 0) }
      if ¬ (env.itemSize < OPCODES_SIZE) then (.assertFailed, st1)
      else
        let st2 := { st1 with
          last_triton_instruction := some (TritonInst.mk pc threadID env.itemSize) }
        match env.processing with
        | .unsupported => (.returned 2, st2)
        | .exception => (.returned 2, st2)
        | .ok => (.returned 0, recordBranch (countSymbolic st2 env) env pc)

/-- An entry of `breakpoint_pending_actions`. -/
structure BreakpointPendingAction where
  address : Nat
  ignore_breakpoint : Bool
deriving DecidableEq, Repr

/-- The two globals `callbacks.cpp` mutates. -/
structure Session where
  ponce_runtime_status : RuntimeStatus
  breakpoint_pending_actions : List BreakpointPendingAction
deriving DecidableEq, Repr

/-- The function `triton_restart_engines()` of `callbacks.cpp`.  The helper
`set_automatic_taint_n_simbolic` is defined in another file of the plugin and is
taken as a parameter acting on the session; the calls that configure the engine do
not touch the session. -/
def triton_restart_engines (set_automatic_taint_n_simbolic : Session → Session)
    (s : Session) : Session :=
  let st := s.ponce_runtime_status
  let st1 : RuntimeStatus := { st with
    last_triton_instruction := none
    runtimeTrigger := false
    is_something_tainted_or_symbolize := false
    tainted_functions_index := 0
    total_number_traced_ins := 0
    total_number_symbolic_ins := 0
    total_number_symbolic_conditions := 0
    current_trace_counter := 0 }
  let s1 : Session := { ponce_runtime_status := st1, breakpoint_pending_actions := [] }
  let s2 := set_automatic_taint_n_simbolic s1
  { s2 with ponce_runtime_status :=
      { s2.ponce_runtime_status with myPathConstraints := [] } }

/-- One event acting on the path-constraint log. -/
inductive Op where
  | trace (env : TraceEnv) (pc threadID : Nat)
  | restart
  /-- The plugin switches the runtime trigger (`runtimeTrigger.enable()`,
  `runtimeTrigger.disable()`), which leaves the log alone. -/
  | setTrigger (enabled : Bool)
deriving DecidableEq, Repr

/-- Effect of one event on the session. -/
def step (auto : Session → Session) (s : Session) : Op → Session
  | .trace env pc threadID =>
    { s with ponce_runtime_status := (tritonize s.ponce_runtime_status env pc threadID).2 }
  | .restart => triton_restart_engines auto s
  | .setTrigger enabled =>
    { s with ponce_runtime_status := { s.ponce_runtime_status with runtimeTrigger := enabled } }

/-- Effect of a sequence of events, oldest first. -/
def run (auto : Session → Session) (s : Session) (ops : List Op) : Session :=
  ops.foldl (step auto) s

/-- The log of a session. -/
def Session.log (s : Session) : List PathConstraint :=
  s.ponce_runtime_status.myPathConstraints

/-- Every stored record carries its own index as bound. -/
def BoundsMatch (log : List PathConstraint) : Prop :=
  ∀ (i : Nat) (r : PathConstraint), log[i]? = some r → r.bound = i

/-! ### Sample data for the callbacks -/

/-- A runtime status with the trigger on and an empty log. -/
def sampleStatus : RuntimeStatus :=
  { runtimeTrigger := true, last_triton_instruction := none,
    is_something_tainted_or_symbolize := true, tainted_functions_index := 0,
    total_number_traced_ins := 0, total_number_symbolic_ins := 0,
    total_number_symbolic_conditions := 0, current_trace_counter := 0,
    myPathConstraints := [] }

/-- A session around `sampleStatus`. -/
def sampleSession : Session :=
  { ponce_runtime_status := sampleStatus, breakpoint_pending_actions := [] }

/-- A two-byte symbolized `je 0x1020`, next address `0x1002`; the argument says
whether its condition is taken. -/
def sampleJe (taken : Bool) : TraceEnv :=
  { itemSize := 2, processing := .ok, isTainted := false, isSymbolized := true,
    isBranch := true, isConditionTaken := taken, nextAddress := 0x1002,
    operand0Immediate := 0x1020, ripId := 7, currentThread := 1 }

/-- Two recorded branches, a restart, the trigger switched on again, one more
recorded branch. -/
def sampleOps : List Op :=
  [.trace (sampleJe true) 0x1000 0, .trace (sampleJe false) 0x1000 0, .restart,
   .setTrigger true, .trace (sampleJe false) 0x1000 0]

/-! ### The debugged process and flag negation (`solver.cpp`) -/

/-- The debugged process as the debugger API shows it: registers by name
(`get_reg_val`, `set_reg_val`, values are `uint64`), memory by byte address
(`get_bytes`, `put_bytes`), and the lines written with `msg` by
`negate_flag_condition`. -/
structure Debugger where
  regs : String → Nat
  mem : Nat → Nat
  output : List String

/-- The call `get_reg_val(name, &v)`. -/
def get_reg_val (d : Debugger) (name : String) : Nat := d.regs name

/-- The call `set_reg_val(name, v)`. -/
def set_reg_val (d : Debugger) (name : String) (v : Nat) : Debugger :=
  { d with regs := fun n => if n = name then v else d.regs n }

/-- The C expression `!v` stored into a `uint64`. -/
def cNot (v : Nat) : Nat := if v = 0 then 1 else 0

/-- The instruction kinds `negate_flag_condition` is asked about:
`triton_instruction->getType()`. -/
inductive InsType where
  | JA | JAE | JB | JBE | JE | JNE | JG | JGE | JL | JLE | JNO | JO | JNP | JP | JNS | JS
  | JCXZ | JECXZ | JRCXZ | JMP
  | other (id : Nat)
deriving DecidableEq, Repr

/-- The function `negate_flag_condition` of `solver.cpp`. -/
def negate_flag_condition (t : InsType) (d : Debugger) : Debugger :=
  match t with
  | .JA =>
    let cf := get_reg_val d "CF"
    let zf := get_reg_val d "ZF"
    if cf = 0 ∧ zf = 0 then set_reg_val (set_reg_val d "ZF" 1) "CF" 1
    else set_reg_val (set_reg_val d "ZF" 0) "CF" 0
  | .JAE =>
    let cf := get_reg_val d "CF"
    let zf := get_reg_val d "ZF"
    if cf = 0 ∨ zf = 0 then set_reg_val (set_reg_val d "ZF" 1) "CF" 1
    else set_reg_val (set_reg_val d "ZF" 0) "CF" 0
  | .JB =>
    let cf := get_reg_val d "CF"
    set_reg_val d "CF" (cNot cf)
  | .JBE =>
    let cf := get_reg_val d "CF"
    let zf := get_reg_val d "ZF"
    if cf = 1 ∨ zf = 1 then set_reg_val (set_reg_val d "ZF" 0) "CF" 0
    else set_reg_val (set_reg_val d "ZF" 1) "CF" 1
  | .JE | .JNE =>
    let zf := get_reg_val d "ZF"
    set_reg_val d "ZF" (cNot zf)
  | .JG =>
    let sf := get_reg_val d "SF"
    let of := get_reg_val d "OF"
    let zf := get_reg_val d "ZF"
    if sf = of ∧ zf = 0 then
      set_reg_val (set_reg_val (set_reg_val d "SF" (cNot of)) "OF" of) "ZF" 1
    else
      set_reg_val (set_reg_val (set_reg_val d "SF" of) "OF" of) "ZF" 0
  | .JGE =>
    let sf := get_reg_val d "SF"
    let of := get_reg_val d "OF"
    let zf := get_reg_val d "ZF"
    if sf = of ∨ zf = 1 then
      set_reg_val (set_reg_val (set_reg_val d "SF" (cNot of)) "OF" of) "ZF" 0
    else
      set_reg_val (set_reg_val (set_reg_val d "SF" of) "OF" of) "ZF" 1
  | .JL =>
    let sf := get_reg_val d "SF"
    let of := get_reg_val d "OF"
    if sf = of then set_reg_val (set_reg_val d "SF" (cNot of)) "OF" of
    else set_reg_val (set_reg_val d "SF" of) "OF" of
  | .JLE =>
    let sf := get_reg_val d "SF"
    let of := get_reg_val d "OF"
    let zf := get_reg_val d "ZF"
    if sf ≠ of ∨ zf = 1 then
      set_reg_val (set_reg_val (set_reg_val d "SF" of) "OF" of) "ZF" 0
    else
      set_reg_val (set_reg_val (set_reg_val d "SF" (cNot of)) "OF" of) "ZF" 1
  | .JNO | .JO =>
    let of := get_reg_val d "OF"
    set_reg_val d "OF" (cNot of)
  | .JNP | .JP =>
    let pf := get_reg_val d "PF"
    set_reg_val d "PF" (cNot pf)
  | .JNS | .JS =>
    let sf := get_reg_val d "SF"
    set_reg_val d "SF" (cNot sf)
  | _ => { d with output := d.output ++ ["[!] We cannot negate instruction"] }

/-- The x86 condition under which a conditional jump of the given kind is taken,
as the specification words it (JA: CF=0 and ZF=0; JBE: CF=1 or ZF=1; JG: ZF=0 and
SF=OF; JLE: ZF=1 or SF!=OF; JL: SF!=OF; JAE: CF=0; JGE: SF=OF; the single-flag
kinds test their flag). -/
def x86JumpTaken (t : InsType) (regs : String → Nat) : Bool :=
  match t with
  | .JA => decide (regs "CF" = 0 ∧ regs "ZF" = 0)
  | .JAE => decide (regs "CF" = 0)
  | .JB => decide (regs "CF" = 1)
  | .JBE => decide (regs "CF" = 1 ∨ regs "ZF" = 1)
  | .JE => decide (regs "ZF" = 1)
  | .JNE => decide (regs "ZF" = 0)
  | .JG => decide (regs "ZF" = 0 ∧ regs "SF" = regs "OF")
  | .JGE => decide (regs "SF" = regs "OF")
  | .JL => decide (regs "SF" ≠ regs "OF")
  | .JLE => decide (regs "ZF" = 1 ∨ regs "SF" ≠ regs "OF")
  | .JNO => decide (regs "OF" = 0)
  | .JO => decide (regs "OF" = 1)
  | .JNP => decide (regs "PF" = 0)
  | .JP => decide (regs "PF" = 1)
  | .JNS => decide (regs "SF" = 0)
  | .JS => decide (regs "SF" = 1)
  | _ => false

/-- A process whose five condition flags have the given values. -/
def flagState (cf zf sf of pf : Nat) : Debugger :=
  { regs := fun n =>
      if n = "CF" then cf else if n = "ZF" then zf else if n = "SF" then sf
      else if n = "OF" then of else if n = "PF" then pf else 0,
    mem := fun _ => 0,
    output := [] }

end Ponce

/-! ### The symbolic engine as `solver.cpp` uses it -/

namespace Triton

/-- The fragment of the engine AST that `solve_formula` builds (`bvtrue`, `equal`,
`land`) together with what predicates are made of. -/
inductive AstNode where
  | bvtrue
  | bvfalse
  | bv (value size : Nat)
  | symvar (symId : Nat)
  | equal (a b : AstNode)
  | land (a b : AstNode)
  | lor (a b : AstNode)
  | lnot (a : AstNode)
deriving DecidableEq, Repr

/-- Value of a node under an assignment of the symbolic variables; a truth value
is 1 or 0. -/
def AstNode.eval (σ : Nat → Nat) : AstNode → Nat
  | .bvtrue => 1
  | .bvfalse => 0
  | .bv value size => value % 2 ^ size
  | .symvar symId => σ symId
  | .equal a b => if a.eval σ = b.eval σ then 1 else 0
  | .land a b => if a.eval σ ≠ 0 ∧ b.eval σ ≠ 0 then 1 else 0
  | .lor a b => if a.eval σ ≠ 0 ∨ b.eval σ ≠ 0 then 1 else 0
  | .lnot a => if a.eval σ = 0 then 1 else 0

/-- The node is true under the assignment. -/
def AstNode.holds (σ : Nat → Nat) (e : AstNode) : Prop := e.eval σ ≠ 0

/-- The conjuncts along the left spine of a conjunction, oldest first. -/
def AstNode.conjuncts : AstNode → List AstNode
  | .land a b => a.conjuncts ++ [b]
  | e => [e]

/-- One branch-constraint tuple `(taken, srcAddr, dstAddr, constraint)`. -/
structure BranchConstraint where
  taken : Bool
  srcAddr : Nat
  dstAddr : Nat
  constraint : AstNode
deriving DecidableEq, Repr

/-- The engine record `triton::engines::symbolic::PathConstraint`. -/
structure PathConstraint where
  branches : List BranchConstraint
deriving DecidableEq, Repr

/-- The call `getBranchConstraints()`. -/
def PathConstraint.getBranchConstraints (r : PathConstraint) : List BranchConstraint :=
  r.branches

/-- The call `getTakenPredicate()`: the constraint of the first tuple marked taken;
the engine throws when there is none. -/
def PathConstraint.getTakenPredicate (r : PathConstraint) : Option AstNode :=
  (r.branches.find? (fun t => t.taken)).map (fun t => t.constraint)

/-- The enumeration `triton::engines::symbolic::variable_e`. -/
inductive variable_e where
  | UNDEFINED_VARIABLE
  | MEMORY_VARIABLE
  | REGISTER_VARIABLE
deriving DecidableEq, Repr

/-- What `solve_formula` reads of a symbolic variable: its kind, its origin (an
address or a register id) and its size in bits. -/
structure SymbolicVariable where
  type : variable_e
  origin : Nat
  size : Nat
deriving DecidableEq, Repr

/-- The value `triton::arch::MemoryAccess(address, size)`, size in bytes. -/
structure MemoryAccess where
  address : Nat
  size : Nat
deriving DecidableEq, Repr

/-- The value `triton::arch::Register(cpu, id)`. -/
structure Register where
  id : Nat
deriving DecidableEq, Repr

/-- Little-endian store of the low `size` bytes of `value` at `addr`. -/
def writeBytes (m : Nat → Nat) (addr size value : Nat) : Nat → Nat :=
  fun a => if addr ≤ a ∧ a < addr + size then (value / 256 ^ (a - addr)) % 256 else m a

/-- Little-endian load of `size` bytes at `addr`. -/
def readBytes (m : Nat → Nat) (addr : Nat) : Nat → Nat
  | 0 => 0
  | size + 1 => m addr % 256 + 256 * readBytes m (addr + 1) size

/-- The state of the engine object `api` that `solver.cpp` reads and writes. -/
structure Api where
  /-- Result of `getPathConstraints()`. -/
  pathConstraints : List PathConstraint
  /-- Result of `getSymbolicVariable(symId)`. -/
  symbolicVariable : Nat → SymbolicVariable
  /-- Result of `getModel(node)`: the pairs (symbolic variable id, value) in iteration order,
  empty when the node is unsatisfiable. -/
  getModel : AstNode → List (Nat × Nat)
  /-- Name of a register, `Register::getName()`. -/
  registerName : Nat → String
  /-- The concrete memory, by byte. -/
  concreteMemory : Nat → Nat
  /-- The concrete registers, by register id. -/
  concreteRegisters : Nat → Nat

/-- The call `setConcreteMemoryValue(mem, value)`. -/
def Api.setConcreteMemoryValue (api : Api) (mem : MemoryAccess) (value : Nat) : Api :=
  { api with concreteMemory := writeBytes api.concreteMemory mem.address mem.size value }

/-- The call `getConcreteMemoryValue(mem, false)`. -/
def Api.getConcreteMemoryValue (api : Api) (mem : MemoryAccess) : Nat :=
  readBytes api.concreteMemory mem.address mem.size

/-- The call `setConcreteRegisterValue(reg, value)`. -/
def Api.setConcreteRegisterValue (api : Api) (reg : Register) (value : Nat) : Api :=
  { api with concreteRegisters := fun r => if r = reg.id then value else api.concreteRegisters r }

/-- The call `getConcreteRegisterValue(reg, false)`. -/
def Api.getConcreteRegisterValue (api : Api) (reg : Register) : Nat :=
  api.concreteRegisters reg.id

end Triton

namespace Ponce

open Triton (AstNode BranchConstraint variable_e SymbolicVariable MemoryAccess Register Api)

/-! ### `solve_formula` and `set_SMT_solution` (`solver.cpp`) -/

/-- Modelled from the spec: the `Input` record of the plugin, declared in
`globals.hpp` (absent): the bound, the source and destination address of the
branch, the memory operands and the register operands. -/
structure Input where
  bound : Int
  srcAddr : Nat
  dstAddr : Nat
  memOperand : List MemoryAccess
  regOperand : List Register
deriving DecidableEq, Repr

/-- Conversion of an `int` into `size_t` (64-bit unsigned). -/
def toSizeT (b : Int) : Nat := (b % 2 ^ 64).toNat

/-- Conversion of an `int` into `unsigned int` (32-bit). -/
def toUInt (b : Int) : Nat := (b % 2 ^ 32).toNat

/-- The guard of line 18, `bound > symbolizedPathConstrains.size() - 1`, evaluated
in `size_t` arithmetic. -/
def boundRejected (size : Nat) (bound : Int) : Bool :=
  decide (toSizeT bound > toSizeT ((size : Int) - 1))

/-- Lines 82-114: one pair of the model is classified by the kind of its variable,
appended to the operand list of that kind and written to the concrete store. -/
def applyModelEntry (api : Api) (newinput : Input) (entry : Nat × Nat) : Input × Api :=
  let symbVar := api.symbolicVariable entry.1
  let model_value := entry.2
  match symbVar.type with
  | .MEMORY_VARIABLE =>
    let mem := MemoryAccess.mk symbVar.origin (symbVar.size / 8)
    ({ newinput with memOperand := newinput.memOperand ++ [mem] },
      api.setConcreteMemoryValue mem model_value)
  | .REGISTER_VARIABLE =>
    let reg := Register.mk symbVar.origin
    ({ newinput with regOperand := newinput.regOperand ++ [reg] },
      api.setConcreteRegisterValue reg model_value)
  | .UNDEFINED_VARIABLE => (newinput, api)

/-- The loop of line 82 over the pairs of a model. -/
def applyModel : Api → Input → List (Nat × Nat) → Input × Api
  | api, newinput, [] => (newinput, api)
  | api, newinput, entry :: rest =>
    applyModel (applyModelEntry api newinput entry).2 (applyModelEntry api newinput entry).1 rest

/-- Lines 75-79: the new `Input` with its bound and the addresses of the tuple, its
operand lists still empty. -/
def freshInput (bound : Int) (t : BranchConstraint) : Input :=
  { bound := bound, dstAddr := t.dstAddr, srcAddr := t.srcAddr,
    memOperand := [], regOperand := [] }

/-- The loop of line 50 over the branch-constraint tuples of the record at the
bound. -/
def solveBranches (bound : Int) (previousConstraints : AstNode) :
    Api → List Input → List BranchConstraint → List Input × Api
  | api, solutions, [] => (solutions, api)
  | api, solutions, t :: rest =>
    if !t.taken then
      let final_expr := AstNode.land previousConstraints t.constraint
      let model := api.getModel final_expr
      if model.length > 0 then
        let newinput := freshInput bound t
        solveBranches bound previousConstraints (applyModel api newinput model).2
          (solutions ++ [(applyModel api newinput model).1]) rest
      else solveBranches bound previousConstraints api solutions rest
    else solveBranches bound previousConstraints api solutions rest

/-- The loop of line 38: for the indices `j` in turn, the taken predicate of record
`j` is conjoined. -/
def keepConditions (sym : List Triton.PathConstraint) :
    List Nat → AstNode → Outcome AstNode
  | [], previousConstraints => .returned previousConstraints
  | j :: js, previousConstraints =>
    match sym[j]? with
    | none => .outOfBounds
    | some r =>
      match r.getTakenPredicate with
      | none => .thrown
      | some predicate => keepConditions sym js (AstNode.land previousConstraints predicate)

/-- Lines 26-46 of `solve_formula`: the formula held in `previousConstraints` when
the loop over the tuples of the record at the bound starts. -/
def previousConstraints (sym : List Triton.PathConstraint) (constrains : List (Nat × AstNode))
    (bound : Int) : Outcome AstNode :=
  let start := AstNode.equal AstNode.bvtrue AstNode.bvtrue
  let withUser := constrains.foldl (fun acc c => AstNode.land acc c.2) start
  keepConditions sym (List.range (toUInt bound)) withUser

/-- The function `solve_formula(pc, bound)` of `solver.cpp`, with the engine `api`
and the user constraints `ponce_table_chooser->constrains` made explicit. -/
def solve_formula (api : Api) (constrains : List (Nat × AstNode)) (pc : Nat) (bound : Int) :
    Outcome (List Input) × Api :=
  let symbolizedPathConstrains := api.pathConstraints
  if boundRejected symbolizedPathConstrains.length bound then (.returned [], api)
  else
    match symbolizedPathConstrains[toSizeT bound]? with
    | none => (.outOfBounds, api)
    | some record =>
      match record.getBranchConstraints[0]? with
      | none => (.outOfBounds, api)
      | some first =>
        if first.srcAddr ≠ pc then (.assertFailed, api)
        else
          match previousConstraints symbolizedPathConstrains constrains bound with
          | .returned previous =>
            ((Outcome.returned (solveBranches bound previous api []
                record.getBranchConstraints).1),
              (solveBranches bound previous api [] record.getBranchConstraints).2)
          | .assertFailed => (.assertFailed, api)
          | .outOfBounds => (.outOfBounds, api)
          | .thrown => (.thrown, api)

/-- The call `put_bytes(addr, &value, size)`. -/
def put_bytes (d : Debugger) (addr value size : Nat) : Debugger :=
  { d with mem := Triton.writeBytes d.mem addr size value }

/-- The first loop of `set_SMT_solution`, over the memory operands. -/
def setMemOperands : Api × Debugger → List MemoryAccess → Api × Debugger
  | st, [] => st
  | (api, d), mem :: rest =>
    let concreteValue := api.getConcreteMemoryValue mem
    setMemOperands
      (api.setConcreteMemoryValue mem concreteValue,
        put_bytes d mem.address concreteValue mem.size) rest

/-- The second loop of `set_SMT_solution`, over the register operands. -/
def setRegOperands : Api × Debugger → List Register → Api × Debugger
  | st, [] => st
  | (api, d), reg :: rest =>
    let concreteRegValue := api.getConcreteRegisterValue reg
    setRegOperands
      (api.setConcreteRegisterValue reg concreteRegValue,
        set_reg_val d (api.registerName reg.id) (concreteRegValue % 2 ^ 64)) rest

/-- The function `set_SMT_solution(solution)` of `solver.cpp`. -/
def set_SMT_solution (st : Api × Debugger) (solution : Input) : Api × Debugger :=
  setRegOperands (setMemOperands st solution.memOperand) solution.regOperand

/-- The taken predicate of record `j` of the list, when the record exists and has
a tuple marked taken. -/
def takenPredicateAt (sym : List Triton.PathConstraint) (j : Nat) : Option AstNode :=
  match sym[j]? with
  | none => none
  | some r => r.getTakenPredicate

/-- Two engine states answer alike: same solver, same table of symbolic variables,
same register names.  `solve_formula` and `set_SMT_solution` only write the
concrete stores. -/
def SameTables (a b : Api) : Prop :=
  a.getModel = b.getModel ∧ a.symbolicVariable = b.symbolicVariable ∧
    a.registerName = b.registerName

/-- The tuples of a record that line 51 and line 74 let through: marked not taken,
and the solver returned a non-empty model for the previous conditions conjoined
with the predicate of the tuple. -/
def solvedTuples (api : Api) (previous : AstNode) (branches : List BranchConstraint) :
    List BranchConstraint :=
  branches.filter (fun t =>
    !t.taken && decide (0 < (api.getModel (AstNode.land previous t.constraint)).length))

/-- The memory pairs of a model, in model order: the cell line 87 builds for the
variable and the value the model gives it. -/
def memoryEntries (api : Api) (model : List (Nat × Nat)) : List (MemoryAccess × Nat) :=
  model.filterMap (fun e =>
    match (api.symbolicVariable e.1).type with
    | .MEMORY_VARIABLE =>
      some (MemoryAccess.mk (api.symbolicVariable e.1).origin
        ((api.symbolicVariable e.1).size / 8), e.2)
    | _ => none)

/-- The register pairs of a model, in model order: the register line 92 builds for
the variable and the value the model gives it. -/
def registerEntries (api : Api) (model : List (Nat × Nat)) : List (Register × Nat) :=
  model.filterMap (fun e =>
    match (api.symbolicVariable e.1).type with
    | .REGISTER_VARIABLE => some (Register.mk (api.symbolicVariable e.1).origin, e.2)
    | _ => none)

/-- Two memory cells share no byte. -/
def CellsApart (c1 c2 : MemoryAccess) : Prop :=
  c1.address + c1.size ≤ c2.address ∨ c2.address + c2.size ≤ c1.address

/-- The operands of a model can hold its values side by side: the memory cells
share no byte and each value fits its cell; the registers have different names and
each value fits 64 bits. -/
def ModelSeparated (api : Api) (model : List (Nat × Nat)) : Prop :=
  (memoryEntries api model).Pairwise (fun a b => CellsApart a.1 b.1) ∧
  (∀ e ∈ memoryEntries api model, e.2 < 256 ^ e.1.size) ∧
  (registerEntries api model).Pairwise
    (fun a b => api.registerName a.1.id ≠ api.registerName b.1.id) ∧
  (∀ e ∈ registerEntries api model, e.2 < 2 ^ 64)

/-- Reading the memory cells and the registers of a model back from the live
process gives the values of the model. -/
def ReadsBack (api : Api) (d : Debugger) (model : List (Nat × Nat)) : Prop :=
  (∀ e ∈ memoryEntries api model, Triton.readBytes d.mem e.1.address e.1.size = e.2) ∧
  (∀ e ∈ registerEntries api model, get_reg_val d (api.registerName e.1.id) = e.2)

/-- Round-trip concretization for the `Input` at position `j` of the result of
`solve_formula`: applying it with `set_SMT_solution` right after the call and
reading its operands back from the live process gives the values of the model it
was built from, the model of the tuple at position `j` among the tuples let
through. -/
def RoundTripAt (api : Api) (constrains : List (Nat × AstNode)) (pc : Nat) (bound : Int)
    (d : Debugger) (j : Nat) : Prop :=
  ∀ (previous : AstNode) (record : Triton.PathConstraint) (sols : List Input)
    (input : Input) (t : BranchConstraint),
    previousConstraints api.pathConstraints constrains bound = Outcome.returned previous →
    api.pathConstraints[toSizeT bound]? = some record →
    (solve_formula api constrains pc bound).1 = Outcome.returned sols →
    sols[j]? = some input →
    (solvedTuples api previous record.branches)[j]? = some t →
    ReadsBack api (set_SMT_solution ((solve_formula api constrains pc bound).2, d) input).2
      (api.getModel (AstNode.land previous t.constraint))

/-! ### Sample data for the solver -/

/-- A two-way record: the tuple towards `takenDst` is marked taken with predicate
`c`, the tuple towards `otherDst` is marked not taken with predicate `lnot c`. -/
def twoWay (src takenDst otherDst : Nat) (c : AstNode) : Triton.PathConstraint :=
  { branches := [BranchConstraint.mk true src takenDst c,
                 BranchConstraint.mk false src otherDst (AstNode.lnot c)] }

/-- An engine with no path constraint, as right after a session reset. -/
def emptyApi : Api :=
  { pathConstraints := [],
    symbolicVariable := fun _ => SymbolicVariable.mk variable_e.UNDEFINED_VARIABLE 0 0,
    getModel := fun _ => [],
    registerName := fun _ => "",
    concreteMemory := fun _ => 0,
    concreteRegisters := fun _ => 0 }

/-- An engine with three records; record 1 is a `JE` at `0x1000` whose taken
successor is `0x1010` and whose other successor is `0x1020`.  Variable 1 is the
byte at `0x2000`; the solver answers every negated condition with the value 65
for it. -/
def sampleApi : Api :=
  { pathConstraints :=
      [twoWay 0x0f00 0x0f02 0x0f40 (AstNode.equal (AstNode.symvar 0) (AstNode.bv 5 8)),
       twoWay 0x1000 0x1010 0x1020 (AstNode.equal (AstNode.symvar 1) (AstNode.bv 66 8)),
       twoWay 0x1100 0x1102 0x1180 (AstNode.equal (AstNode.symvar 2) (AstNode.bv 7 8))],
    symbolicVariable := fun symId =>
      if symId = 1 then SymbolicVariable.mk variable_e.MEMORY_VARIABLE 0x2000 8
      else SymbolicVariable.mk variable_e.REGISTER_VARIABLE symId 64,
    getModel := fun e =>
      match e with
      | AstNode.land _ (AstNode.lnot _) => [(1, 65)]
      | _ => [],
    registerName := fun _ => "rax",
    concreteMemory := fun _ => 0,
    concreteRegisters := fun _ => 0 }

/-- An engine with one record of a three-way branch at `0x1000`: the tuple towards
`0x1010` is marked taken, those towards `0x1020` and `0x1030` are not.  Variable 1
is the byte at `0x2000`; the solver answers the first negation with the value 1
and the second with the value 2 for it. -/
def switchApi : Api :=
  { pathConstraints :=
      [{ branches :=
          [BranchConstraint.mk true 0x1000 0x1010
              (AstNode.equal (AstNode.symvar 1) (AstNode.bv 0 8)),
           BranchConstraint.mk false 0x1000 0x1020
              (AstNode.equal (AstNode.symvar 1) (AstNode.bv 1 8)),
           BranchConstraint.mk false 0x1000 0x1030
              (AstNode.equal (AstNode.symvar 1) (AstNode.bv 2 8))] }],
    symbolicVariable := fun _ => SymbolicVariable.mk variable_e.MEMORY_VARIABLE 0x2000 8,
    getModel := fun e =>
      match e with
      | AstNode.land _ (AstNode.equal _ (AstNode.bv 1 _)) => [(1, 1)]
      | AstNode.land _ (AstNode.equal _ (AstNode.bv 2 _)) => [(1, 2)]
      | _ => [],
    registerName := fun _ => "rax",
    concreteMemory := fun _ => 0,
    concreteRegisters := fun _ => 0 }

/-! ### The mapping table of flag negation -/

/-- The sixteen kinds that have a case in `negate_flag_condition`. -/
def handledKinds : List InsType :=
  [.JA, .JAE, .JB, .JBE, .JE, .JNE, .JG, .JGE, .JL, .JLE, .JNO, .JO, .JNP, .JP, .JNS, .JS]

/-- The flag of a single-flag kind, as the specification lists it: JE and JNE test
ZF, JB tests CF, JO and JNO test OF, JP and JNP test PF, JS and JNS test SF. -/
def singleFlag : InsType → Option String
  | .JE => some "ZF"
  | .JNE => some "ZF"
  | .JB => some "CF"
  | .JO => some "OF"
  | .JNO => some "OF"
  | .JP => some "PF"
  | .JNP => some "PF"
  | .JS => some "SF"
  | .JNS => some "SF"
  | _ => none

/-- The flags in the row of a kind in the mapping table of the specification:
JA/JBE CF and ZF; JAE/JB CF; JE/JNE ZF; JG/JLE SF, OF and ZF; JGE/JL SF and OF;
JO/JNO OF; JP/JNP PF; JS/JNS SF. -/
def rowFlags : InsType → List String
  | .JA => ["CF", "ZF"]
  | .JBE => ["CF", "ZF"]
  | .JAE => ["CF"]
  | .JB => ["CF"]
  | .JE => ["ZF"]
  | .JNE => ["ZF"]
  | .JG => ["SF", "OF", "ZF"]
  | .JLE => ["SF", "OF", "ZF"]
  | .JGE => ["SF", "OF"]
  | .JL => ["SF", "OF"]
  | .JO => ["OF"]
  | .JNO => ["OF"]
  | .JP => ["PF"]
  | .JNP => ["PF"]
  | .JS => ["SF"]
  | .JNS => ["SF"]
  | _ => []

/-- The registers each case of `negate_flag_condition` passes to `set_reg_val`, in
the order of the calls. -/
def writtenFlags : InsType → List String
  | .JA => ["ZF", "CF"]
  | .JAE => ["ZF", "CF"]
  | .JB => ["CF"]
  | .JBE => ["ZF", "CF"]
  | .JE => ["ZF"]
  | .JNE => ["ZF"]
  | .JG => ["SF", "OF", "ZF"]
  | .JGE => ["SF", "OF", "ZF"]
  | .JL => ["SF", "OF"]
  | .JLE => ["SF", "OF", "ZF"]
  | .JNO => ["OF"]
  | .JO => ["OF"]
  | .JNP => ["PF"]
  | .JP => ["PF"]
  | .JNS => ["SF"]
  | .JS => ["SF"]
  | _ => []

/-- The function `negate_flag_condition` on the pair of the engine and the live
process: its cases call `get_reg_val` and `set_reg_val` only, no call goes to
`api`. -/
def negate_flag_condition_stores (t : InsType) (st : Api × Debugger) : Api × Debugger :=
  (st.1, negate_flag_condition t st.2)

/-- The concrete register store of the engine and the live process hold the same
value for each of the listed flags; `flagId` gives the engine register id of a
flag. -/
def StoresAgreeOn (flagId : String → Nat) (st : Api × Debugger) (flags : List String) : Prop :=
  ∀ f ∈ flags, st.1.concreteRegisters (flagId f) = get_reg_val st.2 f

/-- Engine register ids for the five condition flags, for the samples. -/
def sampleFlagId (f : String) : Nat :=
  if f = "CF" then 1 else if f = "ZF" then 2 else if f = "SF" then 3
  else if f = "OF" then 4 else if f = "PF" then 5 else 0

/-- The helper `set_automatic_taint_n_simbolic` leaves alone what
`triton_restart_engines` has reset before it calls the helper: the trigger, the
four counters and the pending breakpoint actions. -/
def KeepsResetFields (auto : Session → Session) : Prop :=
  ∀ s : Session,
    (auto s).breakpoint_pending_actions = s.breakpoint_pending_actions ∧
    (auto s).ponce_runtime_status.runtimeTrigger = s.ponce_runtime_status.runtimeTrigger ∧
    (auto s).ponce_runtime_status.total_number_traced_ins
      = s.ponce_runtime_status.total_number_traced_ins ∧
    (auto s).ponce_runtime_status.total_number_symbolic_ins
      = s.ponce_runtime_status.total_number_symbolic_ins ∧
    (auto s).ponce_runtime_status.total_number_symbolic_conditions
      = s.ponce_runtime_status.total_number_symbolic_conditions ∧
    (auto s).ponce_runtime_status.current_trace_counter
      = s.ponce_runtime_status.current_trace_counter

/-- A session in the middle of a trace: counters running, two records in the log,
one pending breakpoint action. -/
def busySession : Session :=
  { ponce_runtime_status :=
      { runtimeTrigger := true, last_triton_instruction := some (TritonInst.mk 0x1000 1 2),
        is_something_tainted_or_symbolize := true, tainted_functions_index := 3,
        total_number_traced_ins := 120, total_number_symbolic_ins := 17,
        total_number_symbolic_conditions := 2, current_trace_counter := 120,
        myPathConstraints :=
          [PathConstraint.mk 7 0x1000 0x1020 0x1002 0, PathConstraint.mk 7 0x1000 0x1002 0x1020 1] },
    breakpoint_pending_actions := [BreakpointPendingAction.mk 0x401000 false] }

/-- A 15-byte instruction, the longest legal x86 length, that the engine accepts;
a symbolized conditional branch. -/
def longestInstruction : TraceEnv :=
  { itemSize := 15, processing := .ok, isTainted := false, isSymbolized := true,
    isBranch := true, isConditionTaken := true, nextAddress := 0x100f,
    operand0Immediate := 0x2000, ripId := 7, currentThread := 1 }

/-- A two-byte instruction that the engine rejects. -/
def rejectedInstruction : TraceEnv :=
  { itemSize := 2, processing := .unsupported, isTainted := true, isSymbolized := true,
    isBranch := true, isConditionTaken := true, nextAddress := 0x1002,
    operand0Immediate := 0x1020, ripId := 7, currentThread := 1 }

/-- The session as `triton_restart_engines` hands it to
`set_automatic_taint_n_simbolic` on line 227: lines 218-226 have run, the log is
not yet cleared. -/
def sessionAtHelperCall (s : Session) : Session :=
  { ponce_runtime_status :=
      { s.ponce_runtime_status with
        last_triton_instruction := none
        runtimeTrigger := false
        is_something_tainted_or_symbolize := false
        tainted_functions_index := 0
        total_number_traced_ins := 0
        total_number_symbolic_ins := 0
        total_number_symbolic_conditions := 0
        current_trace_counter := 0 },
    breakpoint_pending_actions := [] }

/-- A helper that registers one pending breakpoint action, at the entry of `main`
at `0x401000`: the kind of action the `dbg_bpt` case of `tracer_callback` looks up
in `breakpoint_pending_actions` (the breakpoint set to taint the arguments). -/
def registerMainBreakpoint (s : Session) : Session :=
  { s with breakpoint_pending_actions :=
      s.breakpoint_pending_actions ++ [BreakpointPendingAction.mk 0x401000 false] }

end Ponce

/-! ## Part 2. Theorems -/

namespace Ponce

/-! ### The path-constraint log (`callbacks.cpp`) -/

theorem countSymbolic_log (st : RuntimeStatus) (env : TraceEnv) :
    (countSymbolic st env).myPathConstraints = st.myPathConstraints := by
  unfold countSymbolic
  split
  · split <;> rfl
  · rfl

theorem recordBranch_log (st : RuntimeStatus) (env : TraceEnv) (pc : Nat) :
    (recordBranch st env pc).myPathConstraints = st.myPathConstraints ∨
    ∃ r, r.bound = st.myPathConstraints.length ∧
      (recordBranch st env pc).myPathConstraints = st.myPathConstraints ++ [r] := by
  unfold recordBranch
  split
  · right
    split
    · exact ⟨_, rfl, rfl⟩
    · exact ⟨_, rfl, rfl⟩
  · left; rfl

theorem recordBranch_countSymbolic_log (st st2 : RuntimeStatus) (env : TraceEnv) (pc : Nat)
    (h2 : st2.myPathConstraints = st.myPathConstraints) :
    (recordBranch (countSymbolic st2 env) env pc).myPathConstraints = st.myPathConstraints ∨
    ∃ r, r.bound = st.myPathConstraints.length ∧
      (recordBranch (countSymbolic st2 env) env pc).myPathConstraints
        = st.myPathConstraints ++ [r] := by
  have h := recordBranch_log (countSymbolic st2 env) env pc
  rw [countSymbolic_log, h2] at h
  exact h

/-- The log after `tritonize` is the old log, or the old log followed by one
record whose bound is the old size. -/
theorem tritonize_log (st : RuntimeStatus) (env : TraceEnv) (pc threadID : Nat) :
    (tritonize st env pc threadID).2.myPathConstraints = st.myPathConstraints ∨
    ∃ r, r.bound = st.myPathConstraints.length ∧
      (tritonize st env pc threadID).2.myPathConstraints = st.myPathConstraints ++ [r] := by
  unfold tritonize
  dsimp only
  split_ifs <;>
    first
    | (left; rfl)
    | (cases env.processing <;>
        first
        | (left; rfl)
        | exact recordBranch_countSymbolic_log st _ env pc rfl)

theorem boundsMatch_nil : BoundsMatch [] := by
  intro i r h
  simp at h

theorem boundsMatch_snoc (log : List PathConstraint) (r : PathConstraint)
    (h : BoundsMatch log) (hr : r.bound = log.length) : BoundsMatch (log ++ [r]) := by
  intro i x hx
  by_cases hi : i < log.length
  · rw [List.getElem?_append_left hi] at hx
    exact h i x hx
  · have hle : log.length ≤ i := Nat.le_of_not_lt hi
    rw [List.getElem?_append_right hle] at hx
    by_cases h0 : i - log.length = 0
    · rw [h0] at hx
      simp at hx
      subst hx
      omega
    · obtain ⟨k, hk⟩ := Nat.exists_eq_succ_of_ne_zero h0
      rw [hk] at hx
      simp at hx

theorem step_boundsMatch (auto : Session → Session) (s : Session) (op : Op)
    (h : BoundsMatch s.log) : BoundsMatch (step auto s op).log := by
  cases op with
  | trace env pc threadID =>
    rcases tritonize_log s.ponce_runtime_status env pc threadID with h1 | ⟨r, hr, h1⟩
    · simp only [step, Session.log, h1]
      exact h
    · simp only [step, Session.log, h1]
      exact boundsMatch_snoc _ r h hr
  | restart =>
    simp only [step, Session.log, triton_restart_engines]
    exact boundsMatch_nil
  | setTrigger enabled =>
    simp only [step, Session.log]
    exact h

theorem run_boundsMatch (auto : Session → Session) (ops : List Op) :
    ∀ s : Session, BoundsMatch s.log → BoundsMatch (run auto s ops).log := by
  induction ops with
  | nil => intro s h; exact h
  | cons op rest ih =>
    intro s h
    simp only [run, List.foldl_cons]
    exact ih _ (step_boundsMatch auto s op h)

/-- C1 (bound stability).  In every session reached from an empty log by any
sequence of `tritonize` calls and `triton_restart_engines` calls, the record at
index `i` has `bound = i`; and a further `tritonize` call leaves every record
already stored (so also its bound) at its index unchanged. -/
theorem C1_bound_stability (auto : Session → Session) (s0 : Session) (ops : List Op)
    (h0 : s0.log = []) :
    (∀ (i : Nat) (r : PathConstraint), (run auto s0 ops).log[i]? = some r → r.bound = i) ∧
    (∀ (env : TraceEnv) (pc threadID i : Nat) (r : PathConstraint),
      (run auto s0 ops).log[i]? = some r →
      (tritonize (run auto s0 ops).ponce_runtime_status env pc threadID).2.myPathConstraints[i]?
        = some r) := by
  constructor
  · exact run_boundsMatch auto ops s0 (by rw [h0]; exact boundsMatch_nil)
  · intro env pc threadID i r hi
    have hlt : i < (run auto s0 ops).log.length := by
      rcases Nat.lt_or_ge i (run auto s0 ops).log.length with h | h
      · exact h
      · rw [List.getElem?_eq_none h] at hi
        cases hi
    rcases tritonize_log (run auto s0 ops).ponce_runtime_status env pc threadID with
      h1 | ⟨x, _, h1⟩
    · rw [h1]; exact hi
    · rw [h1]
      exact (List.getElem?_append_left hlt).trans hi

/-- Witness of C1 on `sampleOps`. -/
theorem C1_bound_stability_witness :
    sampleSession.log = [] ∧
    ((∀ (i : Nat) (r : PathConstraint),
      (run id sampleSession sampleOps).log[i]? = some r → r.bound = i) ∧
    (∀ (env : TraceEnv) (pc threadID i : Nat) (r : PathConstraint),
      (run id sampleSession sampleOps).log[i]? = some r →
      (tritonize (run id sampleSession sampleOps).ponce_runtime_status env pc
        threadID).2.myPathConstraints[i]? = some r)) :=
  ⟨rfl, C1_bound_stability id sampleSession sampleOps rfl⟩

/-- C7 (branch polarity).  When `tritonize` reaches a symbolized branch (trigger
on, `pc` not 0, the length assertion holds, the engine accepts the instruction),
it returns 0 and appends exactly one record: its branch address is `pc`, and its
(taken, not-taken) addresses are (addr2, addr1) when the condition was taken and
(addr1, addr2) otherwise, where addr1 is the next address and addr2 the immediate
of the first operand; when the two differ, the taken address is addr2 exactly when
the condition was taken. -/
theorem C7_branch_polarity (st : RuntimeStatus) (env : TraceEnv) (pc threadID : Nat)
    (htrig : st.runtimeTrigger = true) (hpc : pc ≠ 0) (hsize : env.itemSize < OPCODES_SIZE)
    (hok : env.processing = Processing.ok)
    (hbranch : env.isBranch = true) (hsym : env.isSymbolized = true) :
    (tritonize st env pc threadID).1 = Outcome.returned 0 ∧
    ∃ r : PathConstraint,
      (tritonize st env pc threadID).2.myPathConstraints = st.myPathConstraints ++ [r] ∧
      r.conditionAddr = pc ∧
      r.takenAddr = (if env.isConditionTaken then toEa env.operand0Immediate
        else toEa env.nextAddress) ∧
      r.notTakenAddr = (if env.isConditionTaken then toEa env.nextAddress
        else toEa env.operand0Immediate) ∧
      ((r.takenAddr = toEa env.nextAddress ∧ r.notTakenAddr = toEa env.operand0Immediate) ∨
       (r.takenAddr = toEa env.operand0Immediate ∧ r.notTakenAddr = toEa env.nextAddress)) ∧
      (toEa env.nextAddress ≠ toEa env.operand0Immediate →
        (r.takenAddr = toEa env.operand0Immediate ↔ env.isConditionTaken = true)) := by
  have ht : tritonize st env pc threadID =
      (Outcome.returned 0, recordBranch (countSymbolic { st with
        last_triton_instruction := some (TritonInst.mk pc
          (if threadID ≠ 0 then threadID else env.currentThread) env.itemSize) } env) env pc) := by
    unfold tritonize
    simp [htrig, hpc, hsize, hok]
  rw [ht]
  refine ⟨rfl, ?_⟩
  simp only [recordBranch, hbranch, hsym, Bool.and_self, if_true, countSymbolic_log]
  cases hc : env.isConditionTaken
  · refine ⟨_, rfl, rfl, ?_, ?_, Or.inl ⟨?_, ?_⟩, ?_⟩ <;> simp
  · refine ⟨_, rfl, rfl, ?_, ?_, Or.inr ⟨?_, ?_⟩, ?_⟩ <;> simp

/-- Witness of C7: the sample `je` at `0x1000`, not taken. -/
theorem C7_branch_polarity_witness :
    (tritonize sampleStatus (sampleJe false) 0x1000 0).1 = Outcome.returned 0 ∧
    ∃ r : PathConstraint,
      (tritonize sampleStatus (sampleJe false) 0x1000 0).2.myPathConstraints
        = sampleStatus.myPathConstraints ++ [r] ∧
      r.conditionAddr = 0x1000 ∧
      r.takenAddr = (if (sampleJe false).isConditionTaken
        then toEa (sampleJe false).operand0Immediate else toEa (sampleJe false).nextAddress) ∧
      r.notTakenAddr = (if (sampleJe false).isConditionTaken
        then toEa (sampleJe false).nextAddress else toEa (sampleJe false).operand0Immediate) ∧
      ((r.takenAddr = toEa (sampleJe false).nextAddress ∧
          r.notTakenAddr = toEa (sampleJe false).operand0Immediate) ∨
       (r.takenAddr = toEa (sampleJe false).operand0Immediate ∧
          r.notTakenAddr = toEa (sampleJe false).nextAddress)) ∧
      (toEa (sampleJe false).nextAddress ≠ toEa (sampleJe false).operand0Immediate →
        (r.takenAddr = toEa (sampleJe false).operand0Immediate ↔
          (sampleJe false).isConditionTaken = true)) :=
  C7_branch_polarity sampleStatus (sampleJe false) 0x1000 0 rfl (by decide) (by decide) rfl
    rfl rfl

/-! ### Flag negation (`solver.cpp`) -/

theorem flag_cases (v : Nat) (h : v ≤ 1) : v = 0 ∨ v = 1 := by omega

/-- C8.  For JA, JBE, JG, JLE and JL and every flag state with CF, ZF, SF, OF, PF
in {0,1}, the flags written by `negate_flag_condition` give the x86 jump condition
of that kind the opposite truth value; for JA, CF and ZF both become 1 when both
were 0 and both become 0 otherwise. -/
theorem C8_negate_flips (t : InsType) (d : Debugger)
    (ht : t = InsType.JA ∨ t = InsType.JBE ∨ t = InsType.JG ∨ t = InsType.JLE ∨ t = InsType.JL)
    (hcf : d.regs "CF" ≤ 1) (hzf : d.regs "ZF" ≤ 1) (hsf : d.regs "SF" ≤ 1)
    (hof : d.regs "OF" ≤ 1) (_hpf : d.regs "PF" ≤ 1) :
    x86JumpTaken t (negate_flag_condition t d).regs = !(x86JumpTaken t d.regs) ∧
    (t = InsType.JA →
      ((d.regs "CF" = 0 ∧ d.regs "ZF" = 0 →
          (negate_flag_condition t d).regs "CF" = 1 ∧
          (negate_flag_condition t d).regs "ZF" = 1) ∧
       (¬ (d.regs "CF" = 0 ∧ d.regs "ZF" = 0) →
          (negate_flag_condition t d).regs "CF" = 0 ∧
          (negate_flag_condition t d).regs "ZF" = 0))) := by
  rcases flag_cases _ hcf with c | c <;> rcases flag_cases _ hzf with z | z <;>
    rcases flag_cases _ hsf with s | s <;> rcases flag_cases _ hof with o | o <;>
    rcases ht with rfl | rfl | rfl | rfl | rfl <;>
    simp [negate_flag_condition, x86JumpTaken, get_reg_val, set_reg_val, cNot, c, z, s, o]

/-- Witness of C8: JG with ZF = 0 and SF = OF = 1. -/
theorem C8_negate_flips_witness :
    x86JumpTaken InsType.JG (negate_flag_condition InsType.JG (flagState 0 0 1 1 0)).regs
      = !(x86JumpTaken InsType.JG (flagState 0 0 1 1 0).regs) ∧
    (InsType.JG = InsType.JA →
      (((flagState 0 0 1 1 0).regs "CF" = 0 ∧ (flagState 0 0 1 1 0).regs "ZF" = 0 →
          (negate_flag_condition InsType.JG (flagState 0 0 1 1 0)).regs "CF" = 1 ∧
          (negate_flag_condition InsType.JG (flagState 0 0 1 1 0)).regs "ZF" = 1) ∧
       (¬ ((flagState 0 0 1 1 0).regs "CF" = 0 ∧ (flagState 0 0 1 1 0).regs "ZF" = 0) →
          (negate_flag_condition InsType.JG (flagState 0 0 1 1 0)).regs "CF" = 0 ∧
          (negate_flag_condition InsType.JG (flagState 0 0 1 1 0)).regs "ZF" = 0))) :=
  C8_negate_flips InsType.JG (flagState 0 0 1 1 0) (Or.inr (Or.inr (Or.inl rfl)))
    (by decide) (by decide) (by decide) (by decide) (by decide)

/-- C9 (failing input).  For JAE with CF = 1 and ZF = 0 the jump is not taken
before the call, and `negate_flag_condition` writes CF = 1 and ZF = 1, so it is
still not taken afterwards: the condition has not been flipped. -/
theorem C9_jae_not_flipped :
    x86JumpTaken InsType.JAE (flagState 1 0 0 0 0).regs = false ∧
    (negate_flag_condition InsType.JAE (flagState 1 0 0 0 0)).regs "CF" = 1 ∧
    (negate_flag_condition InsType.JAE (flagState 1 0 0 0 0)).regs "ZF" = 1 ∧
    x86JumpTaken InsType.JAE (negate_flag_condition InsType.JAE (flagState 1 0 0 0 0)).regs
      = false := by
  decide

/-- C10 (failing input).  For JGE with SF = 1, OF = 0 and ZF = 1 the jump is not
taken before the call, and `negate_flag_condition` writes SF = 1, OF = 0, ZF = 0,
so it is still not taken afterwards: the condition has not been flipped. -/
theorem C10_jge_not_flipped :
    x86JumpTaken InsType.JGE (flagState 0 1 1 0 0).regs = false ∧
    (negate_flag_condition InsType.JGE (flagState 0 1 1 0 0)).regs "SF" = 1 ∧
    (negate_flag_condition InsType.JGE (flagState 0 1 1 0 0)).regs "OF" = 0 ∧
    (negate_flag_condition InsType.JGE (flagState 0 1 1 0 0)).regs "ZF" = 0 ∧
    x86JumpTaken InsType.JGE (negate_flag_condition InsType.JGE (flagState 0 1 1 0 0)).regs
      = false := by
  decide

/-! ### Arithmetic of the bound check (`solver.cpp`, line 18) -/

theorem toSizeT_lt (b : Int) : toSizeT b < 2 ^ 64 := by
  unfold toSizeT
  have h1 : (0 : Int) ≤ b % 2 ^ 64 := Int.emod_nonneg b (by norm_num)
  have h2 : b % 2 ^ 64 < 2 ^ 64 := Int.emod_lt_of_pos b (by norm_num)
  omega

theorem toSizeT_natCast (n : Nat) (h : n < 2 ^ 64) : toSizeT (n : Int) = n := by
  unfold toSizeT
  have h2 : ((n : Int)) % 2 ^ 64 = n := Int.emod_eq_of_lt (by omega) (by omega)
  rw [h2]
  simp

theorem toUInt_natCast (n : Nat) (h : n < 2 ^ 32) : toUInt (n : Int) = n := by
  unfold toUInt
  have h2 : ((n : Int)) % 2 ^ 32 = n := Int.emod_eq_of_lt (by omega) (by omega)
  rw [h2]
  simp

/-- With an empty list the guard never rejects: `size() - 1` is `2 ^ 64 - 1`. -/
theorem boundRejected_zero (bound : Int) : boundRejected 0 bound = false := by
  unfold boundRejected
  have h := toSizeT_lt bound
  have h1 : toSizeT (((0 : Nat) : Int) - 1) = 2 ^ 64 - 1 := by
    unfold toSizeT
    norm_num
    rfl
  rw [h1]
  simp
  omega

/-- With a non-empty list the guard lets exactly the bounds `0 <= bound < size`
pass. -/
theorem boundRejected_pos (size : Nat) (bound : Int) (h0 : 0 < size) (hs : size < 2 ^ 63)
    (hlo : -(2 : Int) ^ 31 ≤ bound) (hhi : bound < 2 ^ 31) :
    boundRejected size bound = false ↔ (0 ≤ bound ∧ bound < size) := by
  unfold boundRejected
  have h1 : toSizeT ((size : Int) - 1) = size - 1 := by
    have : ((size : Int) - 1) = ((size - 1 : Nat) : Int) := by omega
    rw [this, toSizeT_natCast _ (by omega)]
  rw [h1]
  simp only [gt_iff_lt, decide_eq_false_iff_not, not_lt]
  by_cases hb : 0 ≤ bound
  · obtain ⟨n, rfl⟩ := Int.eq_ofNat_of_zero_le hb
    rw [toSizeT_natCast n (by omega)]
    omega
  · have h2 : toSizeT bound = (bound + 2 ^ 64).toNat := by
      unfold toSizeT
      have : bound % 2 ^ 64 = bound + 2 ^ 64 := by
        rw [← Int.add_emod_self]
        exact Int.emod_eq_of_lt (by omega) (by omega)
      rw [this]
    rw [h2]
    omega

/-- C2 (failing input).  On an empty path-constraint list the guard of line 18
rejects no bound at all; for bound 0 `solve_formula` goes on to index the empty
vector. -/
theorem C2_empty_list_not_rejected :
    (∀ bound : Int, boundRejected emptyApi.pathConstraints.length bound = false) ∧
    (solve_formula emptyApi [] 0x1000 0).1 = Outcome.outOfBounds ∧
    (solve_formula emptyApi [] 0x1000 0).1 ≠ Outcome.returned [] := by
  refine ⟨fun bound => boundRejected_zero bound, ?_, ?_⟩
  · simp [solve_formula, boundRejected_zero, emptyApi, toSizeT]
  · simp [solve_formula, boundRejected_zero, emptyApi, toSizeT]

/-! ### The formula of the previous conditions (`solver.cpp`, lines 26-46) -/

open Triton (AstNode BranchConstraint variable_e SymbolicVariable MemoryAccess Register Api)

theorem holds_land (σ : Nat → Nat) (a b : AstNode) :
    (AstNode.land a b).holds σ ↔ a.holds σ ∧ b.holds σ := by
  unfold AstNode.holds
  simp only [AstNode.eval]
  split <;> simp_all

theorem holds_start (σ : Nat → Nat) :
    (AstNode.equal AstNode.bvtrue AstNode.bvtrue).holds σ := by
  simp [AstNode.holds, AstNode.eval]

theorem holds_foldl_user (σ : Nat → Nat) (users : List (Nat × AstNode)) :
    ∀ start : AstNode,
      (users.foldl (fun acc c => AstNode.land acc c.2) start).holds σ ↔
        start.holds σ ∧ ∀ c ∈ users, c.2.holds σ := by
  induction users with
  | nil => intro start; simp
  | cons c rest ih =>
    intro start
    simp only [List.foldl_cons, ih, holds_land, List.mem_cons, forall_eq_or_imp]
    tauto

theorem conjuncts_foldl_user (users : List (Nat × AstNode)) :
    ∀ start : AstNode,
      (users.foldl (fun acc c => AstNode.land acc c.2) start).conjuncts =
        start.conjuncts ++ users.map Prod.snd := by
  induction users with
  | nil => intro start; simp
  | cons c rest ih =>
    intro start
    simp [List.foldl_cons, ih, AstNode.conjuncts]

/-- The loop over the previous records returns when each visited record has a
taken predicate; the result is the start formula followed by these predicates. -/
theorem keepConditions_spec (sym : List Triton.PathConstraint) (js : List Nat) :
    ∀ start : AstNode, (∀ j ∈ js, ∃ q, takenPredicateAt sym j = some q) →
      ∃ p, keepConditions sym js start = Outcome.returned p ∧
        p.conjuncts = start.conjuncts ++ js.filterMap (takenPredicateAt sym) ∧
        ∀ σ : Nat → Nat, p.holds σ ↔
          start.holds σ ∧ ∀ j ∈ js, ∀ q, takenPredicateAt sym j = some q → q.holds σ := by
  induction js with
  | nil =>
    intro start _
    exact ⟨start, rfl, by simp, by simp⟩
  | cons j rest ih =>
    intro start h
    obtain ⟨q, hq⟩ := h j (List.mem_cons_self j rest)
    have hq2 := hq
    unfold takenPredicateAt at hq2
    cases hr : sym[j]? with
    | none => rw [hr] at hq2; cases hq2
    | some r =>
      rw [hr] at hq2
      dsimp only at hq2
      obtain ⟨p, hp, hc, hs⟩ := ih (AstNode.land start q)
        (fun i hi => h i (List.mem_cons_of_mem j hi))
      refine ⟨p, ?_, ?_, ?_⟩
      · simp only [keepConditions, hr, hq2]
        exact hp
      · rw [hc]
        simp [AstNode.conjuncts, List.filterMap_cons, hq]
      · intro σ
        rw [hs σ, holds_land]
        simp only [List.mem_cons, forall_eq_or_imp, hq, Option.some.injEq, forall_eq']
        tauto

theorem keepConditions_congr (sym sym2 : List Triton.PathConstraint) (js : List Nat) :
    ∀ start : AstNode, (∀ j ∈ js, sym2[j]? = sym[j]?) →
      keepConditions sym2 js start = keepConditions sym js start := by
  induction js with
  | nil => intro start _; rfl
  | cons j rest ih =>
    intro start h
    have hj := h j (List.mem_cons_self j rest)
    simp only [keepConditions, hj]
    cases sym[j]? with
    | none => rfl
    | some r =>
      dsimp only
      cases r.getTakenPredicate with
      | none => rfl
      | some q => exact ih _ (fun i hi => h i (List.mem_cons_of_mem j hi))

/-- The formula of the previous conditions is built whenever the records before
the bound have a taken predicate, and then it is the true start, the user
constraints and the taken predicates of the records before the bound. -/
theorem previousConstraints_spec (sym : List Triton.PathConstraint)
    (users : List (Nat × AstNode)) (k : Nat) (hint : k < 2 ^ 31)
    (htaken : ∀ j, j < k → ∃ q, takenPredicateAt sym j = some q) :
    ∃ p, previousConstraints sym users (k : Int) = Outcome.returned p ∧
      p.conjuncts = AstNode.equal AstNode.bvtrue AstNode.bvtrue ::
        (users.map Prod.snd ++ (List.range k).filterMap (takenPredicateAt sym)) ∧
      ∀ σ : Nat → Nat, p.holds σ ↔
        ((∀ j q, j < k → takenPredicateAt sym j = some q → q.holds σ) ∧
         (∀ c ∈ users, c.2.holds σ)) := by
  unfold previousConstraints
  rw [toUInt_natCast k (by omega)]
  obtain ⟨p, hp, hc, hs⟩ := keepConditions_spec sym (List.range k)
    (users.foldl (fun acc c => AstNode.land acc c.2)
      (AstNode.equal AstNode.bvtrue AstNode.bvtrue))
    (fun j hj => htaken j (List.mem_range.mp hj))
  refine ⟨p, hp, ?_, ?_⟩
  · rw [hc, conjuncts_foldl_user]
    simp [AstNode.conjuncts]
  · intro σ
    rw [hs σ, holds_foldl_user]
    simp only [List.mem_range]
    constructor
    · rintro ⟨⟨_, hu⟩, ht⟩
      exact ⟨fun j q hj hq => ht j hj q hq, hu⟩
    · rintro ⟨ht, hu⟩
      exact ⟨⟨holds_start σ, hu⟩, fun j hj q hq => ht j q hj hq⟩

/-- C3 (prefix correctness).  For an in-range bound `k` whose earlier records each
have a taken predicate, the formula `solve_formula` holds in `previousConstraints`
before it looks at record `k` is built, and it is true under a valuation exactly
when the taken predicate of every record `0..k-1` and every user constraint are
true; its conjuncts are the true start, the user constraints and those taken
predicates, so it is the same for every list with the same first `k` records; and
a permutation of the user constraints gives a logically equivalent formula. -/
theorem C3_previousConstraints_correct (sym : List Triton.PathConstraint)
    (users : List (Nat × AstNode)) (k : Nat) (_hk : k < sym.length) (hint : k < 2 ^ 31)
    (htaken : ∀ j, j < k → ∃ q, takenPredicateAt sym j = some q) :
    ∃ p, previousConstraints sym users (k : Int) = Outcome.returned p ∧
      (∀ σ : Nat → Nat, p.holds σ ↔
        ((∀ j q, j < k → takenPredicateAt sym j = some q → q.holds σ) ∧
         (∀ c ∈ users, c.2.holds σ))) ∧
      p.conjuncts = AstNode.equal AstNode.bvtrue AstNode.bvtrue ::
        (users.map Prod.snd ++ (List.range k).filterMap (takenPredicateAt sym)) ∧
      (∀ sym2 : List Triton.PathConstraint, sym2.take k = sym.take k →
        previousConstraints sym2 users (k : Int) = Outcome.returned p) ∧
      (∀ users2 : List (Nat × AstNode), users2.Perm users →
        ∃ p2, previousConstraints sym users2 (k : Int) = Outcome.returned p2 ∧
          ∀ σ : Nat → Nat, p2.holds σ ↔ p.holds σ) := by
  obtain ⟨p, hp, hc, hs⟩ := previousConstraints_spec sym users k hint htaken
  refine ⟨p, hp, hs, hc, ?_, ?_⟩
  · intro sym2 h2
    rw [← hp]
    unfold previousConstraints
    apply keepConditions_congr
    intro j hj
    rw [toUInt_natCast k (by omega)] at hj
    have hjk : j < k := List.mem_range.mp hj
    have e1 : (sym2.take k)[j]? = sym2[j]? := by rw [List.getElem?_take, if_pos hjk]
    have e2 : (sym.take k)[j]? = sym[j]? := by rw [List.getElem?_take, if_pos hjk]
    rw [← e1, ← e2, h2]
  · intro users2 hperm
    obtain ⟨p2, hp2, _, hs2⟩ := previousConstraints_spec sym users2 k hint htaken
    refine ⟨p2, hp2, ?_⟩
    intro σ
    rw [hs2 σ, hs σ]
    constructor
    · rintro ⟨ht, hu⟩
      exact ⟨ht, fun c hcm => hu c (hperm.mem_iff.mpr hcm)⟩
    · rintro ⟨ht, hu⟩
      exact ⟨ht, fun c hcm => hu c (hperm.mem_iff.mp hcm)⟩

/-- Witness of C3: record 1 of `sampleApi` with one user constraint. -/
theorem C3_previousConstraints_correct_witness :
    ∃ p, previousConstraints sampleApi.pathConstraints [(0, AstNode.bvtrue)] ((1 : Nat) : Int)
        = Outcome.returned p ∧
      (∀ σ : Nat → Nat, p.holds σ ↔
        ((∀ j q, j < 1 → takenPredicateAt sampleApi.pathConstraints j = some q → q.holds σ) ∧
         (∀ c ∈ [((0 : Nat), AstNode.bvtrue)], c.2.holds σ))) ∧
      p.conjuncts = AstNode.equal AstNode.bvtrue AstNode.bvtrue ::
        (([((0 : Nat), AstNode.bvtrue)]).map Prod.snd ++
          (List.range 1).filterMap (takenPredicateAt sampleApi.pathConstraints)) ∧
      (∀ sym2 : List Triton.PathConstraint, sym2.take 1 = sampleApi.pathConstraints.take 1 →
        previousConstraints sym2 [(0, AstNode.bvtrue)] ((1 : Nat) : Int) = Outcome.returned p) ∧
      (∀ users2 : List (Nat × AstNode), users2.Perm [(0, AstNode.bvtrue)] →
        ∃ p2, previousConstraints sampleApi.pathConstraints users2 ((1 : Nat) : Int)
            = Outcome.returned p2 ∧
          ∀ σ : Nat → Nat, p2.holds σ ↔ p.holds σ) :=
  C3_previousConstraints_correct sampleApi.pathConstraints [(0, AstNode.bvtrue)] 1
    (by decide) (by norm_num)
    (fun j hj => by
      have h0 : j = 0 := by omega
      subst h0
      exact ⟨_, rfl⟩)

/-! ### The loop over the tuples of the record at the bound (`solver.cpp`, lines 48-122) -/

theorem sameTables_refl (a : Api) : SameTables a a := ⟨rfl, rfl, rfl⟩

theorem applyModelEntry_frame (api : Api) (i : Input) (e : Nat × Nat) :
    SameTables (applyModelEntry api i e).2 api ∧
    (applyModelEntry api i e).1.bound = i.bound ∧
    (applyModelEntry api i e).1.srcAddr = i.srcAddr ∧
    (applyModelEntry api i e).1.dstAddr = i.dstAddr := by
  unfold applyModelEntry
  dsimp only
  cases (api.symbolicVariable e.1).type <;> exact ⟨⟨rfl, rfl, rfl⟩, rfl, rfl, rfl⟩

theorem applyModel_frame (model : List (Nat × Nat)) :
    ∀ (api : Api) (i : Input),
      SameTables (applyModel api i model).2 api ∧
      (applyModel api i model).1.bound = i.bound ∧
      (applyModel api i model).1.srcAddr = i.srcAddr ∧
      (applyModel api i model).1.dstAddr = i.dstAddr := by
  induction model with
  | nil => intro api i; exact ⟨sameTables_refl api, rfl, rfl, rfl⟩
  | cons e rest ih =>
    intro api i
    obtain ⟨⟨g1, v1, n1⟩, b1, s1, d1⟩ := applyModelEntry_frame api i e
    obtain ⟨⟨g2, v2, n2⟩, b2, s2, d2⟩ :=
      ih (applyModelEntry api i e).2 (applyModelEntry api i e).1
    simp only [applyModel]
    exact ⟨⟨g2.trans g1, v2.trans v1, n2.trans n1⟩, b2.trans b1, s2.trans s1, d2.trans d1⟩

/-- The loop over the tuples appends, in tuple order, one `Input` for each tuple
let through, built by `applyModel` from the fresh `Input` of that tuple and the
model of that tuple; the engine tables stay the same. -/
theorem solveBranches_spec (api : Api) (bound : Int) (previous : AstNode)
    (branches : List BranchConstraint) :
    ∀ (api0 : Api) (sols : List Input), SameTables api0 api →
      ∃ added : List Input,
        (solveBranches bound previous api0 sols branches).1 = sols ++ added ∧
        List.Forall₂ (fun i t => ∃ a1 : Api, SameTables a1 api ∧
            i = (applyModel a1 (freshInput bound t)
              (api.getModel (AstNode.land previous t.constraint))).1)
          added (solvedTuples api previous branches) ∧
        SameTables (solveBranches bound previous api0 sols branches).2 api := by
  induction branches with
  | nil =>
    intro api0 sols h0
    exact ⟨[], by simp [solveBranches], by simp [solvedTuples], h0⟩
  | cons t rest ih =>
    intro api0 sols h0
    have hg : api0.getModel = api.getModel := h0.1
    by_cases ht : t.taken = true
    · obtain ⟨added, h1, h2, h3⟩ := ih api0 sols h0
      refine ⟨added, ?_, ?_, ?_⟩
      · simp only [solveBranches, ht]
        exact h1
      · simp only [solvedTuples, List.filter_cons, ht]
        exact h2
      · simp only [solveBranches, ht]
        exact h3
    · have htf : t.taken = false := by simpa using ht
      by_cases hm : 0 < (api.getModel (AstNode.land previous t.constraint)).length
      · have hf := applyModel_frame (api.getModel (AstNode.land previous t.constraint))
          api0 (freshInput bound t)
        have hsame : SameTables (applyModel api0 (freshInput bound t)
            (api.getModel (AstNode.land previous t.constraint))).2 api :=
          ⟨hf.1.1.trans h0.1, hf.1.2.1.trans h0.2.1, hf.1.2.2.trans h0.2.2⟩
        obtain ⟨added, h1, h2, h3⟩ := ih _ (sols ++ [(applyModel api0 (freshInput bound t)
          (api.getModel (AstNode.land previous t.constraint))).1]) hsame
        refine ⟨(applyModel api0 (freshInput bound t)
          (api.getModel (AstNode.land previous t.constraint))).1 :: added, ?_, ?_, ?_⟩
        · simp only [solveBranches, htf, hg, hm]
          simpa using h1
        · simp only [solvedTuples, List.filter_cons, htf, hm]
          exact List.Forall₂.cons ⟨api0, h0, rfl⟩ h2
        · simp only [solveBranches, htf, hg, hm]
          simpa using h3
      · obtain ⟨added, h1, h2, h3⟩ := ih api0 sols h0
        refine ⟨added, ?_, ?_, ?_⟩
        · simp only [solveBranches, htf, hg, hm]
          simpa using h1
        · simp only [solvedTuples, List.filter_cons, htf, hm]
          simpa using h2
        · simp only [solveBranches, htf, hg, hm]
          simpa using h3

/-- For an in-range bound whose record starts with a tuple at `pc`, and whose
earlier records have a taken predicate, `solve_formula` returns what the loop over
the tuples of that record collects. -/
theorem solve_formula_returns (api : Api) (users : List (Nat × AstNode)) (pc k : Nat)
    (record : Triton.PathConstraint) (first : BranchConstraint)
    (hsize : api.pathConstraints.length < 2 ^ 63) (hint : k < 2 ^ 31)
    (hrec : api.pathConstraints[k]? = some record)
    (hfirst : record.branches[0]? = some first) (hpc : first.srcAddr = pc)
    (htaken : ∀ j, j < k → ∃ q, takenPredicateAt api.pathConstraints j = some q) :
    ∃ previous, previousConstraints api.pathConstraints users (k : Int)
        = Outcome.returned previous ∧
      solve_formula api users pc (k : Int) =
        (Outcome.returned (solveBranches (k : Int) previous api [] record.branches).1,
          (solveBranches (k : Int) previous api [] record.branches).2) := by
  obtain ⟨previous, hprev, _, _⟩ :=
    previousConstraints_spec api.pathConstraints users k hint htaken
  refine ⟨previous, hprev, ?_⟩
  have hlt : k < api.pathConstraints.length := by
    rcases Nat.lt_or_ge k api.pathConstraints.length with h | h
    · exact h
    · rw [List.getElem?_eq_none h] at hrec
      cases hrec
  have hrej : boundRejected api.pathConstraints.length (k : Int) = false :=
    (boundRejected_pos _ _ (by omega) hsize (by omega) (by omega)).mpr
      ⟨by omega, by omega⟩
  unfold solve_formula
  simp only [hrej, toSizeT_natCast k (by omega), hrec, Triton.PathConstraint.getBranchConstraints,
    hfirst, hpc, hprev]
  simp

/-- The result of `solve_formula` corresponds, one to one and in tuple order, to
the tuples let through; each `Input` carries the bound and the addresses of its
tuple. -/
theorem solve_formula_correspondence (api : Api) (users : List (Nat × AstNode)) (pc k : Nat)
    (record : Triton.PathConstraint) (first : BranchConstraint)
    (hsize : api.pathConstraints.length < 2 ^ 63) (hint : k < 2 ^ 31)
    (hrec : api.pathConstraints[k]? = some record)
    (hfirst : record.branches[0]? = some first) (hpc : first.srcAddr = pc)
    (htaken : ∀ j, j < k → ∃ q, takenPredicateAt api.pathConstraints j = some q) :
    ∃ previous sols, previousConstraints api.pathConstraints users (k : Int)
        = Outcome.returned previous ∧
      (solve_formula api users pc (k : Int)).1 = Outcome.returned sols ∧
      List.Forall₂ (fun i t => i.bound = (k : Int) ∧ i.srcAddr = t.srcAddr ∧
          i.dstAddr = t.dstAddr) sols (solvedTuples api previous record.branches) := by
  obtain ⟨previous, hprev, hsolve⟩ :=
    solve_formula_returns api users pc k record first hsize hint hrec hfirst hpc htaken
  obtain ⟨added, h1, h2, _⟩ :=
    solveBranches_spec api (k : Int) previous record.branches api [] (sameTables_refl api)
  refine ⟨previous, added, hprev, ?_, ?_⟩
  · rw [hsolve]
    simp only [h1, List.nil_append]
  · refine List.Forall₂.imp ?_ h2
    rintro i t ⟨a1, _, rfl⟩
    obtain ⟨_, hb, hs, hd⟩ := applyModel_frame
      (api.getModel (AstNode.land previous t.constraint)) a1 (freshInput (k : Int) t)
    exact ⟨hb, hs, hd⟩

theorem solvedTuples_mem (api : Api) (previous : AstNode) (branches : List BranchConstraint)
    (t : BranchConstraint) (h : t ∈ solvedTuples api previous branches) :
    t ∈ branches ∧ t.taken = false ∧
      0 < (api.getModel (AstNode.land previous t.constraint)).length := by
  unfold solvedTuples at h
  rw [List.mem_filter] at h
  obtain ⟨hm, hc⟩ := h
  simp only [Bool.and_eq_true, Bool.not_eq_true', decide_eq_true_eq] at hc
  exact ⟨hm, hc.1, hc.2⟩

/-- C4 (negation completeness).  For an in-range bound `k` (the record exists, its
first tuple is at `pc`, the earlier records have a taken predicate)
`solve_formula` returns, and the returned Inputs correspond one to one and in tuple
order to the tuples of record `k` that are marked not taken and for which the
solver returned a non-empty model for the previous conditions conjoined with the
predicate of the tuple.  So there are no more Inputs than not-taken tuples, none
when every tuple is taken, and none when every negation is unsatisfiable. -/
theorem C4_negation_completeness (api : Api) (users : List (Nat × AstNode)) (pc k : Nat)
    (record : Triton.PathConstraint) (first : BranchConstraint)
    (hsize : api.pathConstraints.length < 2 ^ 63) (hint : k < 2 ^ 31)
    (hrec : api.pathConstraints[k]? = some record)
    (hfirst : record.branches[0]? = some first) (hpc : first.srcAddr = pc)
    (htaken : ∀ j, j < k → ∃ q, takenPredicateAt api.pathConstraints j = some q) :
    ∃ previous sols, previousConstraints api.pathConstraints users (k : Int)
        = Outcome.returned previous ∧
      (solve_formula api users pc (k : Int)).1 = Outcome.returned sols ∧
      List.Forall₂ (fun i t => i.bound = (k : Int) ∧ i.srcAddr = t.srcAddr ∧
          i.dstAddr = t.dstAddr) sols
        (record.branches.filter (fun t => !t.taken &&
          decide (0 < (api.getModel (AstNode.land previous t.constraint)).length))) ∧
      sols.length ≤ (record.branches.filter (fun t => !t.taken)).length ∧
      ((∀ t ∈ record.branches, t.taken = true) → sols = []) ∧
      ((∀ t ∈ record.branches, t.taken = false →
          api.getModel (AstNode.land previous t.constraint) = []) → sols = []) := by
  obtain ⟨previous, sols, hprev, hsol, hcorr⟩ :=
    solve_formula_correspondence api users pc k record first hsize hint hrec hfirst hpc htaken
  refine ⟨previous, sols, hprev, hsol, hcorr, ?_, ?_, ?_⟩
  · rw [hcorr.length_eq]
    apply List.Sublist.length_le
    apply List.monotone_filter_right
    intro t ht
    simp only [Bool.and_eq_true] at ht
    exact ht.1
  · intro hall
    have hnil : solvedTuples api previous record.branches = [] := by
      apply List.eq_nil_iff_forall_not_mem.mpr
      intro t ht
      obtain ⟨hm, hf, _⟩ := solvedTuples_mem api previous record.branches t ht
      rw [hall t hm] at hf
      cases hf
    rw [hnil] at hcorr
    exact List.forall₂_nil_right_iff.mp hcorr
  · intro hall
    have hnil : solvedTuples api previous record.branches = [] := by
      apply List.eq_nil_iff_forall_not_mem.mpr
      intro t ht
      obtain ⟨hm, hf, hlen⟩ := solvedTuples_mem api previous record.branches t ht
      rw [hall t hm hf] at hlen
      simp at hlen
    rw [hnil] at hcorr
    exact List.forall₂_nil_right_iff.mp hcorr

theorem sampleApi_taken (j : Nat) (hj : j < 1) :
    ∃ q, takenPredicateAt sampleApi.pathConstraints j = some q := by
  have h0 : j = 0 := by omega
  subst h0
  exact ⟨_, rfl⟩

/-- Witness of C4: bound 1 of `sampleApi`, the `JE` at `0x1000`. -/
theorem C4_negation_completeness_witness :
    ∃ previous sols, previousConstraints sampleApi.pathConstraints [] ((1 : Nat) : Int)
        = Outcome.returned previous ∧
      (solve_formula sampleApi [] 0x1000 ((1 : Nat) : Int)).1 = Outcome.returned sols ∧
      List.Forall₂ (fun i t => i.bound = ((1 : Nat) : Int) ∧ i.srcAddr = t.srcAddr ∧
          i.dstAddr = t.dstAddr) sols
        ((twoWay 0x1000 0x1010 0x1020
            (AstNode.equal (AstNode.symvar 1) (AstNode.bv 66 8))).branches.filter
          (fun t => !t.taken &&
            decide (0 < (sampleApi.getModel (AstNode.land previous t.constraint)).length))) ∧
      sols.length ≤ ((twoWay 0x1000 0x1010 0x1020
            (AstNode.equal (AstNode.symvar 1) (AstNode.bv 66 8))).branches.filter
          (fun t => !t.taken)).length ∧
      ((∀ t ∈ (twoWay 0x1000 0x1010 0x1020
            (AstNode.equal (AstNode.symvar 1) (AstNode.bv 66 8))).branches,
          t.taken = true) → sols = []) ∧
      ((∀ t ∈ (twoWay 0x1000 0x1010 0x1020
            (AstNode.equal (AstNode.symvar 1) (AstNode.bv 66 8))).branches,
          t.taken = false →
            sampleApi.getModel (AstNode.land previous t.constraint) = []) → sols = []) :=
  C4_negation_completeness sampleApi [] 0x1000 1
    (twoWay 0x1000 0x1010 0x1020 (AstNode.equal (AstNode.symvar 1) (AstNode.bv 66 8)))
    (BranchConstraint.mk true 0x1000 0x1010 (AstNode.equal (AstNode.symvar 1) (AstNode.bv 66 8)))
    (by simp [sampleApi]) (by norm_num) rfl rfl rfl sampleApi_taken

theorem readBytes_congr (m1 m2 : Nat → Nat) (n : Nat) :
    ∀ addr : Nat, (∀ a, addr ≤ a → a < addr + n → m1 a % 256 = m2 a % 256) →
      Triton.readBytes m1 addr n = Triton.readBytes m2 addr n := by
  induction n with
  | zero => intro addr _; rfl
  | succ n ih =>
    intro addr h
    simp only [Triton.readBytes]
    rw [h addr (Nat.le_refl addr) (by omega),
      ih (addr + 1) (fun a h1 h2 => h a (by omega) (by omega))]

theorem readBytes_lt (m : Nat → Nat) (n : Nat) :
    ∀ addr : Nat, Triton.readBytes m addr n < 256 ^ n := by
  induction n with
  | zero => intro addr; simp [Triton.readBytes]
  | succ n ih =>
    intro addr
    simp only [Triton.readBytes]
    have h1 := ih (addr + 1)
    have h2 : m addr % 256 < 256 := Nat.mod_lt _ (by norm_num)
    rw [pow_succ]
    omega

/-- Byte `i` of the value loaded from a cell is the byte stored at offset `i`. -/
theorem readBytes_digit (m : Nat → Nat) (n : Nat) :
    ∀ (addr i : Nat), i < n →
      (Triton.readBytes m addr n / 256 ^ i) % 256 = m (addr + i) % 256 := by
  induction n with
  | zero => intro addr i hi; omega
  | succ n ih =>
    intro addr i hi
    simp only [Triton.readBytes]
    cases i with
    | zero =>
      simp only [pow_zero, Nat.div_one, Nat.add_zero]
      omega
    | succ i =>
      have h1 : (m addr % 256 + 256 * Triton.readBytes m (addr + 1) n) / 256 ^ (i + 1)
          = Triton.readBytes m (addr + 1) n / 256 ^ i := by
        rw [pow_succ, Nat.mul_comm (256 ^ i) 256, ← Nat.div_div_eq_div_mul]
        congr 1
        have h2 : m addr % 256 < 256 := Nat.mod_lt _ (by norm_num)
        omega
      rw [h1, ih (addr + 1) i (by omega)]
      congr 2
      omega

theorem readBytes_writeBytes_same (m : Nat → Nat) (n : Nat) :
    ∀ (addr value : Nat),
      Triton.readBytes (Triton.writeBytes m addr n value) addr n = value % 256 ^ n := by
  induction n with
  | zero => intro addr value; simp [Triton.readBytes, Nat.mod_one]
  | succ n ih =>
    intro addr value
    simp only [Triton.readBytes]
    have h1 : Triton.readBytes (Triton.writeBytes m addr (n + 1) value) (addr + 1) n
        = Triton.readBytes (Triton.writeBytes m (addr + 1) n (value / 256)) (addr + 1) n := by
      apply readBytes_congr
      intro a ha1 ha2
      have e1 : Triton.writeBytes m addr (n + 1) value a
          = (value / 256 ^ (a - addr)) % 256 := by
        unfold Triton.writeBytes
        rw [if_pos ⟨by omega, by omega⟩]
      have e2 : Triton.writeBytes m (addr + 1) n (value / 256) a
          = (value / 256 / 256 ^ (a - (addr + 1))) % 256 := by
        unfold Triton.writeBytes
        rw [if_pos ⟨by omega, by omega⟩]
      rw [e1, e2]
      have e3 : a - addr = (a - (addr + 1)) + 1 := by omega
      rw [e3, pow_succ, Nat.mul_comm, Nat.div_div_eq_div_mul]
    have h0 : Triton.writeBytes m addr (n + 1) value addr = value % 256 := by
      unfold Triton.writeBytes
      rw [if_pos ⟨by omega, by omega⟩]
      simp
    rw [h1, ih, h0, Nat.mod_mod]
    rw [pow_succ, Nat.mul_comm (256 ^ n) 256, Nat.mod_mul]

/-- A store into one cell does not change what is loaded from a cell apart. -/
theorem readBytes_writeBytes_apart (m : Nat → Nat) (a n value b k : Nat)
    (h : a + n ≤ b ∨ b + k ≤ a) :
    Triton.readBytes (Triton.writeBytes m a n value) b k = Triton.readBytes m b k := by
  apply readBytes_congr
  intro x hx1 hx2
  unfold Triton.writeBytes
  rw [if_neg (by omega)]

/-- Storing back the value just loaded from a cell changes no load. -/
theorem readBytes_write_back (m : Nat → Nat) (a n b k : Nat) :
    Triton.readBytes (Triton.writeBytes m a n (Triton.readBytes m a n)) b k
      = Triton.readBytes m b k := by
  apply readBytes_congr
  intro x _ _
  unfold Triton.writeBytes
  split
  · rename_i hx
    rw [Nat.mod_mod, readBytes_digit m n a (x - a) (by omega)]
    congr 2
    omega
  · rfl

/-- Evaluation of the sample `JE`: one Input, towards `0x1020`, for the byte at
`0x2000`. -/
theorem sampleApi_solve :
    (solve_formula sampleApi [] 0x1000 1).1 =
      Outcome.returned [Input.mk 1 0x1000 0x1020 [MemoryAccess.mk 0x2000 1] []] := by
  decide

/-- Evaluation of the sample three-way branch: two Inputs for the same cell, and
the concrete store of the engine holds the value of the second model. -/
theorem switchApi_solve :
    (solve_formula switchApi [] 0x1000 0).1 =
      Outcome.returned [Input.mk 0 0x1000 0x1020 [MemoryAccess.mk 0x2000 1] [],
        Input.mk 0 0x1000 0x1030 [MemoryAccess.mk 0x2000 1] []] ∧
    (solve_formula switchApi [] 0x1000 0).2.concreteMemory 0x2000 = 2 := by
  decide

/-! ### What `applyModel` leaves in the concrete store of the engine -/

theorem memoryEntries_tables (a b : Api) (h : a.symbolicVariable = b.symbolicVariable)
    (model : List (Nat × Nat)) : memoryEntries a model = memoryEntries b model := by
  unfold memoryEntries
  rw [h]

theorem registerEntries_tables (a b : Api) (h : a.symbolicVariable = b.symbolicVariable)
    (model : List (Nat × Nat)) : registerEntries a model = registerEntries b model := by
  unfold registerEntries
  rw [h]

theorem applyModel_operands (model : List (Nat × Nat)) :
    ∀ (a : Api) (i : Input),
      (applyModel a i model).1.memOperand
        = i.memOperand ++ (memoryEntries a model).map Prod.fst ∧
      (applyModel a i model).1.regOperand
        = i.regOperand ++ (registerEntries a model).map Prod.fst := by
  induction model with
  | nil => intro a i; simp [applyModel, memoryEntries, registerEntries]
  | cons e rest ih =>
    intro a i
    have hv := (applyModelEntry_frame a i e).1.2.1
    obtain ⟨h1, h2⟩ := ih (applyModelEntry a i e).2 (applyModelEntry a i e).1
    rw [memoryEntries_tables _ a hv] at h1
    rw [registerEntries_tables _ a hv] at h2
    simp only [applyModel, h1, h2]
    cases ht : (a.symbolicVariable e.1).type <;>
      simp [applyModelEntry, memoryEntries, registerEntries, List.filterMap_cons, ht]

theorem applyModel_memory_frame (model : List (Nat × Nat)) :
    ∀ (a : Api) (i : Input) (b k : Nat),
      (∀ e ∈ memoryEntries a model, CellsApart e.1 (MemoryAccess.mk b k)) →
      Triton.readBytes (applyModel a i model).2.concreteMemory b k
        = Triton.readBytes a.concreteMemory b k := by
  induction model with
  | nil => intro a i b k _; rfl
  | cons e rest ih =>
    intro a i b k h
    have hv := (applyModelEntry_frame a i e).1.2.1
    simp only [applyModel]
    rw [ih (applyModelEntry a i e).2 (applyModelEntry a i e).1 b k]
    · cases ht : (a.symbolicVariable e.1).type
      · simp [applyModelEntry, ht]
      · have hap := h (MemoryAccess.mk (a.symbolicVariable e.1).origin
            ((a.symbolicVariable e.1).size / 8), e.2)
          (by simp [memoryEntries, List.filterMap_cons, ht])
        simp only [applyModelEntry, ht, Api.setConcreteMemoryValue]
        exact readBytes_writeBytes_apart _ _ _ _ _ _ hap
      · simp [applyModelEntry, ht, Api.setConcreteRegisterValue]
    · intro x hx
      rw [memoryEntries_tables _ a hv] at hx
      apply h
      unfold memoryEntries at hx ⊢
      rw [List.filterMap_cons]
      split
      · exact hx
      · exact List.mem_cons_of_mem _ hx

theorem applyModel_memory_values (model : List (Nat × Nat)) :
    ∀ (a : Api) (i : Input),
      (memoryEntries a model).Pairwise (fun x y => CellsApart x.1 y.1) →
      (∀ e ∈ memoryEntries a model, e.2 < 256 ^ e.1.size) →
      ∀ e ∈ memoryEntries a model,
        Triton.readBytes (applyModel a i model).2.concreteMemory e.1.address e.1.size
          = e.2 := by
  induction model with
  | nil => intro a i _ _ e he; simp [memoryEntries] at he
  | cons e0 rest ih =>
    intro a i hpw hfit e he
    have hv := (applyModelEntry_frame a i e0).1.2.1
    simp only [applyModel]
    cases ht : (a.symbolicVariable e0.1).type
    · have hme : memoryEntries a (e0 :: rest) = memoryEntries a rest := by
        simp [memoryEntries, List.filterMap_cons, ht]
      rw [hme] at hpw hfit he
      rw [← memoryEntries_tables _ a hv] at hpw hfit he
      exact ih _ _ hpw hfit e he
    · have hme : memoryEntries a (e0 :: rest) =
          (MemoryAccess.mk (a.symbolicVariable e0.1).origin
            ((a.symbolicVariable e0.1).size / 8), e0.2) :: memoryEntries a rest := by
        simp [memoryEntries, List.filterMap_cons, ht]
      rw [hme] at hpw hfit he
      rw [List.pairwise_cons] at hpw
      rcases List.mem_cons.mp he with rfl | hmem
      · rw [applyModel_memory_frame rest _ _ _ _]
        · simp only [applyModelEntry, ht, Api.setConcreteMemoryValue]
          rw [readBytes_writeBytes_same]
          exact Nat.mod_eq_of_lt (hfit _ (List.mem_cons_self _ _))
        · intro x hx
          rw [memoryEntries_tables _ a hv] at hx
          rcases hpw.1 x hx with hx1 | hx2
          · exact Or.inr hx1
          · exact Or.inl hx2
      · rw [← memoryEntries_tables _ a hv] at hpw hfit hmem
        exact ih _ _ hpw.2 (fun x hx => hfit x (List.mem_cons_of_mem _ hx)) e hmem
    · have hme : memoryEntries a (e0 :: rest) = memoryEntries a rest := by
        simp [memoryEntries, List.filterMap_cons, ht]
      rw [hme] at hpw hfit he
      rw [← memoryEntries_tables _ a hv] at hpw hfit he
      exact ih _ _ hpw hfit e he

theorem applyModel_register_frame (model : List (Nat × Nat)) :
    ∀ (a : Api) (i : Input) (r : Nat),
      (∀ e ∈ registerEntries a model, e.1.id ≠ r) →
      (applyModel a i model).2.concreteRegisters r = a.concreteRegisters r := by
  induction model with
  | nil => intro a i r _; rfl
  | cons e rest ih =>
    intro a i r h
    have hv := (applyModelEntry_frame a i e).1.2.1
    simp only [applyModel]
    rw [ih (applyModelEntry a i e).2 (applyModelEntry a i e).1 r]
    · cases ht : (a.symbolicVariable e.1).type
      · simp [applyModelEntry, ht]
      · simp [applyModelEntry, ht, Api.setConcreteMemoryValue]
      · have hne := h (Register.mk (a.symbolicVariable e.1).origin, e.2)
          (by simp [registerEntries, List.filterMap_cons, ht])
        simp only [applyModelEntry, ht, Api.setConcreteRegisterValue]
        rw [if_neg (fun hr => hne hr.symm)]
    · intro x hx
      rw [registerEntries_tables _ a hv] at hx
      apply h
      unfold registerEntries at hx ⊢
      rw [List.filterMap_cons]
      split
      · exact hx
      · exact List.mem_cons_of_mem _ hx

theorem applyModel_register_values (model : List (Nat × Nat)) :
    ∀ (a : Api) (i : Input),
      (registerEntries a model).Pairwise (fun x y => x.1.id ≠ y.1.id) →
      ∀ e ∈ registerEntries a model,
        (applyModel a i model).2.concreteRegisters e.1.id = e.2 := by
  induction model with
  | nil => intro a i _ e he; simp [registerEntries] at he
  | cons e0 rest ih =>
    intro a i hpw e he
    have hv := (applyModelEntry_frame a i e0).1.2.1
    simp only [applyModel]
    cases ht : (a.symbolicVariable e0.1).type
    · have hme : registerEntries a (e0 :: rest) = registerEntries a rest := by
        simp [registerEntries, List.filterMap_cons, ht]
      rw [hme] at hpw he
      rw [← registerEntries_tables _ a hv] at hpw he
      exact ih _ _ hpw e he
    · have hme : registerEntries a (e0 :: rest) = registerEntries a rest := by
        simp [registerEntries, List.filterMap_cons, ht]
      rw [hme] at hpw he
      rw [← registerEntries_tables _ a hv] at hpw he
      exact ih _ _ hpw e he
    · have hme : registerEntries a (e0 :: rest) =
          (Register.mk (a.symbolicVariable e0.1).origin, e0.2) :: registerEntries a rest := by
        simp [registerEntries, List.filterMap_cons, ht]
      rw [hme] at hpw he
      rw [List.pairwise_cons] at hpw
      rcases List.mem_cons.mp he with rfl | hmem
      · rw [applyModel_register_frame rest _ _ _]
        · simp [applyModelEntry, ht, Api.setConcreteRegisterValue]
        · intro x hx
          rw [registerEntries_tables _ a hv] at hx
          exact fun hxe => hpw.1 x hx hxe.symm
      · rw [← registerEntries_tables _ a hv] at hpw hmem
        exact ih _ _ hpw.2 e hmem

/-! ### What `set_SMT_solution` writes to the live process -/

theorem setMemOperands_spec (cells : List MemoryAccess) :
    ∀ (api : Api) (d : Debugger),
      SameTables (setMemOperands (api, d) cells).1 api ∧
      (setMemOperands (api, d) cells).1.concreteRegisters = api.concreteRegisters ∧
      (setMemOperands (api, d) cells).2.regs = d.regs ∧
      ∀ b k, Triton.readBytes (setMemOperands (api, d) cells).1.concreteMemory b k
        = Triton.readBytes api.concreteMemory b k := by
  induction cells with
  | nil => intro api d; exact ⟨sameTables_refl api, rfl, rfl, fun _ _ => rfl⟩
  | cons c rest ih =>
    intro api d
    obtain ⟨⟨g, v, n⟩, hr, hd, hm⟩ := ih
      (api.setConcreteMemoryValue c (api.getConcreteMemoryValue c))
      (put_bytes d c.address (api.getConcreteMemoryValue c) c.size)
    simp only [setMemOperands]
    refine ⟨⟨g, v, n⟩, hr, hd, ?_⟩
    intro b k
    rw [hm b k]
    exact readBytes_write_back _ _ _ _ _

theorem setMemOperands_frame (cells : List MemoryAccess) :
    ∀ (api : Api) (d : Debugger) (b k : Nat),
      (∀ c ∈ cells, CellsApart c (MemoryAccess.mk b k)) →
      Triton.readBytes (setMemOperands (api, d) cells).2.mem b k
        = Triton.readBytes d.mem b k := by
  induction cells with
  | nil => intro api d b k _; rfl
  | cons c rest ih =>
    intro api d b k h
    simp only [setMemOperands]
    rw [ih _ _ b k (fun x hx => h x (List.mem_cons_of_mem _ hx))]
    exact readBytes_writeBytes_apart _ _ _ _ _ _ (h c (List.mem_cons_self _ _))

theorem setMemOperands_values (cells : List MemoryAccess) :
    ∀ (api : Api) (d : Debugger), cells.Pairwise CellsApart →
      ∀ c ∈ cells,
        Triton.readBytes (setMemOperands (api, d) cells).2.mem c.address c.size
          = Triton.readBytes api.concreteMemory c.address c.size := by
  induction cells with
  | nil => intro api d _ c hc; cases hc
  | cons c0 rest ih =>
    intro api d hpw c hc
    rw [List.pairwise_cons] at hpw
    simp only [setMemOperands]
    rcases List.mem_cons.mp hc with rfl | hmem
    · rw [setMemOperands_frame rest _ _ _ _]
      · simp only [put_bytes, Api.getConcreteMemoryValue]
        rw [readBytes_writeBytes_same]
        exact Nat.mod_eq_of_lt (readBytes_lt _ _ _)
      · intro x hx
        rcases hpw.1 x hx with h1 | h2
        · exact Or.inr h1
        · exact Or.inl h2
    · rw [ih _ _ hpw.2 c hmem]
      simp only [Api.setConcreteMemoryValue, Api.getConcreteMemoryValue]
      exact readBytes_write_back _ _ _ _ _

theorem setConcreteRegisterValue_back (api : Api) (reg : Register) :
    api.setConcreteRegisterValue reg (api.getConcreteRegisterValue reg) = api := by
  unfold Api.setConcreteRegisterValue Api.getConcreteRegisterValue
  have h : (fun r => if r = reg.id then api.concreteRegisters reg.id
      else api.concreteRegisters r) = api.concreteRegisters := by
    funext r
    split
    · rename_i hr
      rw [hr]
    · rfl
  rw [h]

theorem setRegOperands_spec (regs : List Register) :
    ∀ (api : Api) (d : Debugger),
      (setRegOperands (api, d) regs).1 = api ∧
      (setRegOperands (api, d) regs).2.mem = d.mem := by
  induction regs with
  | nil => intro api d; exact ⟨rfl, rfl⟩
  | cons r rest ih =>
    intro api d
    simp only [setRegOperands, setConcreteRegisterValue_back]
    obtain ⟨h1, h2⟩ := ih api (set_reg_val d (api.registerName r.id)
      (api.getConcreteRegisterValue r % 2 ^ 64))
    exact ⟨h1, h2⟩

theorem setRegOperands_frame (regs : List Register) :
    ∀ (api : Api) (d : Debugger) (name : String),
      (∀ r ∈ regs, api.registerName r.id ≠ name) →
      (setRegOperands (api, d) regs).2.regs name = d.regs name := by
  induction regs with
  | nil => intro api d name _; rfl
  | cons r rest ih =>
    intro api d name h
    simp only [setRegOperands, setConcreteRegisterValue_back]
    rw [ih _ _ name (fun x hx => h x (List.mem_cons_of_mem _ hx))]
    simp only [set_reg_val]
    rw [if_neg (fun hn => h r (List.mem_cons_self _ _) hn.symm)]

theorem setRegOperands_values (regs : List Register) :
    ∀ (api : Api) (d : Debugger),
      regs.Pairwise (fun x y => api.registerName x.id ≠ api.registerName y.id) →
      ∀ r ∈ regs,
        (setRegOperands (api, d) regs).2.regs (api.registerName r.id)
          = api.concreteRegisters r.id % 2 ^ 64 := by
  induction regs with
  | nil => intro api d _ r hr; cases hr
  | cons r0 rest ih =>
    intro api d hpw r hr
    rw [List.pairwise_cons] at hpw
    simp only [setRegOperands, setConcreteRegisterValue_back]
    rcases List.mem_cons.mp hr with rfl | hmem
    · rw [setRegOperands_frame rest _ _ _ (fun x hx hn => hpw.1 x hx hn.symm)]
      simp [set_reg_val, Api.getConcreteRegisterValue]
    · exact ih _ _ hpw.2 r hmem

/-! ### Round trip of the last solution -/

/-- When no tuple is let through, the loop over the tuples changes nothing; else its
last `Input` and its final engine state are those `applyModel` made from the model
of the last tuple let through. -/
theorem solveBranches_last (api : Api) (bound : Int) (previous : AstNode)
    (branches : List BranchConstraint) :
    ∀ (api0 : Api) (sols : List Input), SameTables api0 api →
      (solvedTuples api previous branches = [] →
        solveBranches bound previous api0 sols branches = (sols, api0)) ∧
      (∀ t, (solvedTuples api previous branches).getLast? = some t →
        ∃ a1 : Api, SameTables a1 api ∧
          (solveBranches bound previous api0 sols branches).1.getLast? =
            some (applyModel a1 (freshInput bound t)
              (api.getModel (AstNode.land previous t.constraint))).1 ∧
          (solveBranches bound previous api0 sols branches).2 =
            (applyModel a1 (freshInput bound t)
              (api.getModel (AstNode.land previous t.constraint))).2) := by
  induction branches with
  | nil =>
    intro api0 sols _
    refine ⟨fun _ => rfl, ?_⟩
    intro t ht
    simp [solvedTuples] at ht
  | cons t0 rest ih =>
    intro api0 sols h0
    have hg : api0.getModel = api.getModel := h0.1
    by_cases hq : (!t0.taken && decide
        (0 < (api.getModel (AstNode.land previous t0.constraint)).length)) = true
    · have hst : solvedTuples api previous (t0 :: rest)
          = t0 :: solvedTuples api previous rest := by
        simp only [solvedTuples, List.filter_cons, hq, if_true]
      simp only [Bool.and_eq_true, Bool.not_eq_true', decide_eq_true_eq] at hq
      have hf := applyModel_frame (api.getModel (AstNode.land previous t0.constraint))
        api0 (freshInput bound t0)
      have hsame : SameTables (applyModel api0 (freshInput bound t0)
          (api.getModel (AstNode.land previous t0.constraint))).2 api :=
        ⟨hf.1.1.trans h0.1, hf.1.2.1.trans h0.2.1, hf.1.2.2.trans h0.2.2⟩
      have hstep : solveBranches bound previous api0 sols (t0 :: rest) =
          solveBranches bound previous
            (applyModel api0 (freshInput bound t0)
              (api.getModel (AstNode.land previous t0.constraint))).2
            (sols ++ [(applyModel api0 (freshInput bound t0)
              (api.getModel (AstNode.land previous t0.constraint))).1]) rest := by
        simp [solveBranches, hq.1, hg, hq.2]
      obtain ⟨ih1, ih2⟩ := ih _ (sols ++ [(applyModel api0 (freshInput bound t0)
          (api.getModel (AstNode.land previous t0.constraint))).1]) hsame
      rw [hst, hstep]
      refine ⟨fun h => (by cases h), ?_⟩
      intro t ht
      cases hrest : solvedTuples api previous rest with
      | nil =>
        rw [hrest] at ht
        simp only [List.getLast?_singleton, Option.some.injEq] at ht
        subst ht
        rw [ih1 hrest]
        exact ⟨api0, h0, by simp, rfl⟩
      | cons x xs =>
        rw [hrest, List.getLast?_cons_cons, ← hrest] at ht
        exact ih2 t ht
    · have hst : solvedTuples api previous (t0 :: rest) = solvedTuples api previous rest := by
        simp only [solvedTuples, List.filter_cons, hq]
        simp
      have hstep : solveBranches bound previous api0 sols (t0 :: rest) =
          solveBranches bound previous api0 sols rest := by
        simp only [Bool.and_eq_true, Bool.not_eq_true', decide_eq_true_eq, not_and] at hq
        by_cases ht0 : t0.taken = true
        · simp [solveBranches, ht0]
        · have ht1 : t0.taken = false := by simpa using ht0
          have hlen := hq ht1
          simp [solveBranches, ht1, hg]
          intro hcontra
          exact absurd hcontra hlen
      rw [hst, hstep]
      exact ih api0 sols h0

/-- After `applyModel` and `set_SMT_solution` on the operands it collected, reading
the operands of a separated model back from the live process gives its values. -/
theorem applyModel_round_trip (api a1 : Api) (h1 : SameTables a1 api) (d : Debugger)
    (fresh : Input) (hm : fresh.memOperand = []) (hr : fresh.regOperand = [])
    (model : List (Nat × Nat)) (hsep : ModelSeparated api model) :
    ReadsBack api
      (set_SMT_solution ((applyModel a1 fresh model).2, d) (applyModel a1 fresh model).1).2
      model := by
  obtain ⟨hpw, hfit, hnames, h64⟩ := hsep
  have hme : memoryEntries a1 model = memoryEntries api model :=
    memoryEntries_tables a1 api h1.2.1 model
  have hre : registerEntries a1 model = registerEntries api model :=
    registerEntries_tables a1 api h1.2.1 model
  obtain ⟨hop1, hop2⟩ := applyModel_operands model a1 fresh
  rw [hm, List.nil_append, hme] at hop1
  rw [hr, List.nil_append, hre] at hop2
  have hf := (applyModel_frame model a1 fresh).1
  obtain ⟨hS, hregs, _, _⟩ := setMemOperands_spec
    ((memoryEntries api model).map Prod.fst) (applyModel a1 fresh model).2 d
  have hname : (setMemOperands ((applyModel a1 fresh model).2, d)
      ((memoryEntries api model).map Prod.fst)).1.registerName = api.registerName :=
    hS.2.2.trans (hf.2.2.trans h1.2.2)
  have heta : setMemOperands ((applyModel a1 fresh model).2, d)
      ((memoryEntries api model).map Prod.fst) =
      ((setMemOperands ((applyModel a1 fresh model).2, d)
          ((memoryEntries api model).map Prod.fst)).1,
        (setMemOperands ((applyModel a1 fresh model).2, d)
          ((memoryEntries api model).map Prod.fst)).2) := rfl
  unfold set_SMT_solution
  rw [hop1, hop2, heta]
  constructor
  · intro e he
    rw [(setRegOperands_spec _ _ _).2]
    rw [setMemOperands_values _ _ _ (List.pairwise_map.mpr hpw) e.1
      (List.mem_map_of_mem Prod.fst he)]
    exact applyModel_memory_values model a1 fresh (by rw [hme]; exact hpw)
      (by rw [hme]; exact hfit) e (by rw [hme]; exact he)
  · intro e he
    unfold get_reg_val
    have hv := setRegOperands_values ((registerEntries api model).map Prod.fst)
      (setMemOperands ((applyModel a1 fresh model).2, d)
        ((memoryEntries api model).map Prod.fst)).1
      (setMemOperands ((applyModel a1 fresh model).2, d)
        ((memoryEntries api model).map Prod.fst)).2
      (by rw [hname]; exact List.pairwise_map.mpr hnames) e.1
      (List.mem_map_of_mem Prod.fst he)
    rw [hname] at hv
    rw [hv, hregs]
    have hids : (registerEntries a1 model).Pairwise (fun x y => x.1.id ≠ y.1.id) := by
      rw [hre]
      exact hnames.imp (fun hne hid => hne (by rw [hid]))
    rw [applyModel_register_values model a1 fresh hids e (by rw [hre]; exact he)]
    exact Nat.mod_eq_of_lt (h64 e he)

/-- C6 (round trip, amended).  For an in-range bound `k`, `solve_formula` returns,
and for the last Input of the result (the only one when a single negation is
satisfiable), provided the operands of its model are separated (memory cells share
no byte and hold their values, registers differ by name and their values fit 64
bits): applying it with `set_SMT_solution` right after `solve_formula` and reading
its memory cells and registers back from the live process gives the values of the
model it was built from. -/
theorem C6_round_trip_last (api : Api) (users : List (Nat × AstNode)) (pc k : Nat)
    (record : Triton.PathConstraint) (first : BranchConstraint) (d : Debugger)
    (hsize : api.pathConstraints.length < 2 ^ 63) (hint : k < 2 ^ 31)
    (hrec : api.pathConstraints[k]? = some record)
    (hfirst : record.branches[0]? = some first) (hpc : first.srcAddr = pc)
    (htaken : ∀ j, j < k → ∃ q, takenPredicateAt api.pathConstraints j = some q)
    (hsep : ∀ previous t,
      previousConstraints api.pathConstraints users (k : Int) = Outcome.returned previous →
      (solvedTuples api previous record.branches).getLast? = some t →
      ModelSeparated api (api.getModel (AstNode.land previous t.constraint))) :
    ∃ sols, (solve_formula api users pc (k : Int)).1 = Outcome.returned sols ∧
      ∀ j, j + 1 = sols.length → RoundTripAt api users pc (k : Int) d j := by
  obtain ⟨previous, hprev, hsolve⟩ :=
    solve_formula_returns api users pc k record first hsize hint hrec hfirst hpc htaken
  obtain ⟨added, h1, h2, _⟩ :=
    solveBranches_spec api (k : Int) previous record.branches api [] (sameTables_refl api)
  rw [List.nil_append] at h1
  refine ⟨added, by rw [hsolve, h1], ?_⟩
  intro j hj previous2 record2 sols2 input t hp2 hr2 hs2 hin ht
  rw [hprev] at hp2
  cases hp2
  rw [toSizeT_natCast k (by omega), hrec] at hr2
  cases hr2
  rw [hsolve] at hs2
  simp only [Outcome.returned.injEq] at hs2
  rw [h1] at hs2
  subst hs2
  have hlen := h2.length_eq
  have hlastT : (solvedTuples api previous record.branches).getLast? = some t := by
    rw [List.getLast?_eq_getElem?, ← hlen, ← hj]
    exact ht
  have hlastI : added.getLast? = some input := by
    rw [List.getLast?_eq_getElem?, ← hj]
    exact hin
  obtain ⟨a1, hsame, hI, hA⟩ :=
    (solveBranches_last api (k : Int) previous record.branches api []
      (sameTables_refl api)).2 t hlastT
  rw [h1, hlastI] at hI
  simp only [Option.some.injEq] at hI
  rw [hsolve]
  dsimp only
  rw [hA, hI]
  exact applyModel_round_trip api a1 hsame d (freshInput (k : Int) t) rfl rfl _
    (hsep previous t hprev hlastT)

/-- C6 (counterexample).  On the sample three-way branch the result holds two
Inputs for the byte at `0x2000`; the first was built from the model that gives it
the value 1, yet applying it writes the value 2 of the second model: the round trip
fails for the Input at position 0. -/
theorem C6_round_trip_counterexample :
    ¬ RoundTripAt switchApi [] 0x1000 0 (flagState 0 0 0 0 0) 0 := by
  intro h
  have h1 := (h (AstNode.equal AstNode.bvtrue AstNode.bvtrue)
    { branches :=
        [BranchConstraint.mk true 0x1000 0x1010
            (AstNode.equal (AstNode.symvar 1) (AstNode.bv 0 8)),
         BranchConstraint.mk false 0x1000 0x1020
            (AstNode.equal (AstNode.symvar 1) (AstNode.bv 1 8)),
         BranchConstraint.mk false 0x1000 0x1030
            (AstNode.equal (AstNode.symvar 1) (AstNode.bv 2 8))] }
    [Input.mk 0 0x1000 0x1020 [MemoryAccess.mk 0x2000 1] [],
      Input.mk 0 0x1000 0x1030 [MemoryAccess.mk 0x2000 1] []]
    (Input.mk 0 0x1000 0x1020 [MemoryAccess.mk 0x2000 1] [])
    (BranchConstraint.mk false 0x1000 0x1020
      (AstNode.equal (AstNode.symvar 1) (AstNode.bv 1 8)))
    (by decide) (by decide) (by decide) (by decide) (by decide)).1
    (MemoryAccess.mk 0x2000 1, 1) (by decide)
  revert h1
  decide

theorem sampleApi_separated (e : AstNode) : ModelSeparated sampleApi (sampleApi.getModel e) := by
  have hcases : sampleApi.getModel e = [(1, 65)] ∨ sampleApi.getModel e = [] := by
    unfold sampleApi
    dsimp only
    split
    · exact Or.inl rfl
    · exact Or.inr rfl
  rcases hcases with h | h
  · rw [h]
    simp [ModelSeparated, memoryEntries, registerEntries, sampleApi]
  · rw [h]
    simp [ModelSeparated, memoryEntries, registerEntries]

/-- Witness of C6: bound 1 of `sampleApi`, the `JE` at `0x1000`. -/
theorem C6_round_trip_last_witness :
    ∃ sols, (solve_formula sampleApi [] 0x1000 ((1 : Nat) : Int)).1 = Outcome.returned sols ∧
      ∀ j, j + 1 = sols.length →
        RoundTripAt sampleApi [] 0x1000 ((1 : Nat) : Int) (flagState 0 0 0 0 0) j :=
  C6_round_trip_last sampleApi [] 0x1000 1
    (twoWay 0x1000 0x1010 0x1020 (AstNode.equal (AstNode.symvar 1) (AstNode.bv 66 8)))
    (BranchConstraint.mk true 0x1000 0x1010 (AstNode.equal (AstNode.symvar 1) (AstNode.bv 66 8)))
    (flagState 0 0 0 0 0)
    (by simp [sampleApi]) (by norm_num) rfl rfl rfl sampleApi_taken
    (fun previous t _ _ => sampleApi_separated (AstNode.land previous t.constraint))

/-- Evaluation of the sample `JE`: after the Input is applied, the byte at `0x2000`
of the live process holds the value 65 of the model. -/
theorem sampleApi_apply :
    (set_SMT_solution ((solve_formula sampleApi [] 0x1000 1).2, flagState 0 0 0 0 0)
      (Input.mk 1 0x1000 0x1020 [MemoryAccess.mk 0x2000 1] [])).2.mem 0x2000 = 65 := by
  decide

/-! ### Single-flag kinds, flags touched, unsupported kinds (`solver.cpp`) -/

theorem cNot_cNot (v : Nat) (h : v ≤ 1) : cNot (cNot v) = v := by
  rcases flag_cases v h with rfl | rfl <;> rfl

theorem cNot_eq_sub (v : Nat) (h : v ≤ 1) : cNot v = 1 - v := by
  rcases flag_cases v h with rfl | rfl <;> rfl

/-- A single-flag kind reads its flag and writes back the C negation of it. -/
theorem negate_single (t : InsType) (f : String) (d : Debugger) (hf : singleFlag t = some f) :
    negate_flag_condition t d = set_reg_val d f (cNot (get_reg_val d f)) := by
  cases t <;> simp only [singleFlag, Option.some.injEq] at hf <;>
    first
    | (subst hf; rfl)
    | cases hf

theorem set_reg_val_twice (d : Debugger) (f : String) (h : d.regs f ≤ 1) :
    set_reg_val (set_reg_val d f (cNot (get_reg_val d f))) f
      (cNot (get_reg_val (set_reg_val d f (cNot (get_reg_val d f))) f)) = d := by
  cases d with
  | mk regs mem output =>
    simp only [set_reg_val, get_reg_val, if_true]
    have hfun : (fun n => if n = f then cNot (cNot (regs f))
        else if n = f then cNot (regs f) else regs n) = regs := by
      funext n
      by_cases hn : n = f
      · subst hn
        simp only [if_true]
        exact cNot_cNot _ h
      · simp only [hn, if_false]
    rw [hfun]

/-- C11 (single-flag negations are mutual inverses).  For a kind among JE, JNE, JB,
JO, JNO, JP, JNP, JS, JNS whose flag has a value in {0,1}, `negate_flag_condition`
replaces that flag by its complement and changes nothing else; applying then any
kind with the same flag (JNE after JE, JE after JNE, JB after JB, and so on for
JO/JNO, JP/JNP, JS/JNS) gives back the whole state. -/
theorem C11_single_flag_inverse (t : InsType) (f : String) (d : Debugger)
    (hf : singleFlag t = some f) (hv : d.regs f ≤ 1) :
    (negate_flag_condition t d).regs f = 1 - d.regs f ∧
    (∀ n, n ≠ f → (negate_flag_condition t d).regs n = d.regs n) ∧
    (negate_flag_condition t d).mem = d.mem ∧
    (negate_flag_condition t d).output = d.output ∧
    (∀ t2, singleFlag t2 = some f →
      negate_flag_condition t2 (negate_flag_condition t d) = d) := by
  rw [negate_single t f d hf]
  refine ⟨?_, ?_, rfl, rfl, ?_⟩
  · simp only [set_reg_val, get_reg_val, if_true]
    exact cNot_eq_sub _ hv
  · intro n hn
    simp only [set_reg_val, hn, if_false]
  · intro t2 h2
    rw [negate_single t2 f _ h2]
    exact set_reg_val_twice d f hv

/-- Witness of C11: JE then JNE on a state with ZF = 1. -/
theorem C11_single_flag_inverse_witness :
    (negate_flag_condition InsType.JE (flagState 0 1 0 0 0)).regs "ZF"
      = 1 - (flagState 0 1 0 0 0).regs "ZF" ∧
    (∀ n, n ≠ "ZF" →
      (negate_flag_condition InsType.JE (flagState 0 1 0 0 0)).regs n
        = (flagState 0 1 0 0 0).regs n) ∧
    (negate_flag_condition InsType.JE (flagState 0 1 0 0 0)).mem = (flagState 0 1 0 0 0).mem ∧
    (negate_flag_condition InsType.JE (flagState 0 1 0 0 0)).output
      = (flagState 0 1 0 0 0).output ∧
    (∀ t2, singleFlag t2 = some "ZF" →
      negate_flag_condition t2 (negate_flag_condition InsType.JE (flagState 0 1 0 0 0))
        = flagState 0 1 0 0 0) :=
  C11_single_flag_inverse InsType.JE "ZF" (flagState 0 1 0 0 0) rfl (by decide)

/-- Every register that a case does not pass to `set_reg_val` keeps its value. -/
theorem negate_frame_written (t : InsType) (d : Debugger) (n : String)
    (hn : n ∉ writtenFlags t) :
    (negate_flag_condition t d).regs n = d.regs n := by
  cases t <;> simp only [writtenFlags, List.mem_cons, List.mem_singleton, List.not_mem_nil,
      or_false, not_or, not_false_eq_true] at hn <;>
    simp only [negate_flag_condition, get_reg_val, set_reg_val] <;>
    (try split_ifs) <;> simp_all

/-- Apart from JAE and JGE, every kind leaves the flags outside its row of the
mapping table unchanged. -/
theorem negate_frame_rows (t : InsType) (d : Debugger) (n : String)
    (ht : t ≠ InsType.JAE ∧ t ≠ InsType.JGE) (hn : n ∉ rowFlags t) :
    (negate_flag_condition t d).regs n = d.regs n := by
  apply negate_frame_written
  intro hw
  apply hn
  cases t <;> simp_all [writtenFlags, rowFlags]

/-- C12 (failing inputs).  ZF is not in the row of JAE nor in the row of JGE, yet
JAE on CF = 0, ZF = 0 changes ZF from 0 to 1, and JGE on SF = OF = 0, ZF = 1
changes ZF from 1 to 0. -/
theorem C12_jae_jge_write_zf :
    ("ZF" ∉ rowFlags InsType.JAE ∧
      (flagState 0 0 0 0 0).regs "ZF" = 0 ∧
      (negate_flag_condition InsType.JAE (flagState 0 0 0 0 0)).regs "ZF" = 1) ∧
    ("ZF" ∉ rowFlags InsType.JGE ∧
      (flagState 0 1 0 0 0).regs "ZF" = 1 ∧
      (negate_flag_condition InsType.JGE (flagState 0 1 0 0 0)).regs "ZF" = 0) := by
  decide

/-- C13 (unsupported kind).  For every kind outside the sixteen handled ones
(JCXZ, JECXZ, JRCXZ, an unconditional jump, any other instruction)
`negate_flag_condition` returns the state it was given with one more reported
line: no register and no memory byte is written, so CF, ZF, SF, OF and PF are
unchanged. -/
theorem C13_unsupported_kind (t : InsType) (d : Debugger) (ht : t ∉ handledKinds) :
    (negate_flag_condition t d).regs = d.regs ∧
    (negate_flag_condition t d).mem = d.mem ∧
    (negate_flag_condition t d).output = d.output ++ ["[!] We cannot negate instruction"] ∧
    (∀ f ∈ ["CF", "ZF", "SF", "OF", "PF"],
      get_reg_val (negate_flag_condition t d) f = get_reg_val d f) := by
  have h : negate_flag_condition t d =
      { d with output := d.output ++ ["[!] We cannot negate instruction"] } := by
    cases t <;> first
      | rfl
      | (exfalso; apply ht; decide)
  rw [h]
  exact ⟨rfl, rfl, rfl, fun _ _ => rfl⟩

/-- Witness of C13: JRCXZ. -/
theorem C13_unsupported_kind_witness :
    (negate_flag_condition InsType.JRCXZ (flagState 1 0 1 0 1)).regs
      = (flagState 1 0 1 0 1).regs ∧
    (negate_flag_condition InsType.JRCXZ (flagState 1 0 1 0 1)).mem
      = (flagState 1 0 1 0 1).mem ∧
    (negate_flag_condition InsType.JRCXZ (flagState 1 0 1 0 1)).output
      = (flagState 1 0 1 0 1).output ++ ["[!] We cannot negate instruction"] ∧
    (∀ f ∈ ["CF", "ZF", "SF", "OF", "PF"],
      get_reg_val (negate_flag_condition InsType.JRCXZ (flagState 1 0 1 0 1)) f
        = get_reg_val (flagState 1 0 1 0 1) f) :=
  C13_unsupported_kind InsType.JRCXZ (flagState 1 0 1 0 1) (by decide)

/-! ### The two register stores after flag negation -/

/-- With flag values in {0,1}, every handled kind changes at least one of the
flags it writes. -/
theorem negate_changes_written (t : InsType) (d : Debugger) (ht : t ∈ handledKinds)
    (hcf : d.regs "CF" ≤ 1) (hzf : d.regs "ZF" ≤ 1) (hsf : d.regs "SF" ≤ 1)
    (hof : d.regs "OF" ≤ 1) (hpf : d.regs "PF" ≤ 1) :
    ¬ (∀ f ∈ writtenFlags t, (negate_flag_condition t d).regs f = d.regs f) := by
  simp only [handledKinds, List.mem_cons, List.mem_singleton, List.not_mem_nil, or_false] at ht
  rcases ht with rfl | rfl | rfl | rfl | rfl | rfl | rfl | rfl | rfl | rfl | rfl | rfl |
    rfl | rfl | rfl | rfl
  · rcases flag_cases _ hcf with c | c <;> rcases flag_cases _ hzf with z | z <;>
      simp [writtenFlags, negate_flag_condition, get_reg_val, set_reg_val, cNot, c, z]
  · rcases flag_cases _ hcf with c | c <;> rcases flag_cases _ hzf with z | z <;>
      simp [writtenFlags, negate_flag_condition, get_reg_val, set_reg_val, cNot, c, z]
  · rcases flag_cases _ hcf with c | c <;>
      simp [writtenFlags, negate_flag_condition, get_reg_val, set_reg_val, cNot, c]
  · rcases flag_cases _ hcf with c | c <;> rcases flag_cases _ hzf with z | z <;>
      simp [writtenFlags, negate_flag_condition, get_reg_val, set_reg_val, cNot, c, z]
  · rcases flag_cases _ hzf with z | z <;>
      simp [writtenFlags, negate_flag_condition, get_reg_val, set_reg_val, cNot, z]
  · rcases flag_cases _ hzf with z | z <;>
      simp [writtenFlags, negate_flag_condition, get_reg_val, set_reg_val, cNot, z]
  · rcases flag_cases _ hsf with s | s <;> rcases flag_cases _ hof with o | o <;>
      rcases flag_cases _ hzf with z | z <;>
      simp [writtenFlags, negate_flag_condition, get_reg_val, set_reg_val, cNot, s, o, z]
  · rcases flag_cases _ hsf with s | s <;> rcases flag_cases _ hof with o | o <;>
      rcases flag_cases _ hzf with z | z <;>
      simp [writtenFlags, negate_flag_condition, get_reg_val, set_reg_val, cNot, s, o, z]
  · rcases flag_cases _ hsf with s | s <;> rcases flag_cases _ hof with o | o <;>
      simp [writtenFlags, negate_flag_condition, get_reg_val, set_reg_val, cNot, s, o]
  · rcases flag_cases _ hsf with s | s <;> rcases flag_cases _ hof with o | o <;>
      rcases flag_cases _ hzf with z | z <;>
      simp [writtenFlags, negate_flag_condition, get_reg_val, set_reg_val, cNot, s, o, z]
  · rcases flag_cases _ hof with o | o <;>
      simp [writtenFlags, negate_flag_condition, get_reg_val, set_reg_val, cNot, o]
  · rcases flag_cases _ hof with o | o <;>
      simp [writtenFlags, negate_flag_condition, get_reg_val, set_reg_val, cNot, o]
  · rcases flag_cases _ hpf with p | p <;>
      simp [writtenFlags, negate_flag_condition, get_reg_val, set_reg_val, cNot, p]
  · rcases flag_cases _ hpf with p | p <;>
      simp [writtenFlags, negate_flag_condition, get_reg_val, set_reg_val, cNot, p]
  · rcases flag_cases _ hsf with s | s <;>
      simp [writtenFlags, negate_flag_condition, get_reg_val, set_reg_val, cNot, s]
  · rcases flag_cases _ hsf with s | s <;>
      simp [writtenFlags, negate_flag_condition, get_reg_val, set_reg_val, cNot, s]

/-- C14 (flag-path side effect, amended).  For every handled kind
`negate_flag_condition` writes into the live process only: the concrete register
store of the engine is left as it was, and live registers other than the flags
the case writes keep their values.  With flag values in {0,1} at least one written
flag changes in the live process, so two stores that agreed on the written flags
before the call do not agree on all of them after it. -/
theorem C14_live_store_only (flagId : String → Nat) (t : InsType) (api : Api) (d : Debugger)
    (ht : t ∈ handledKinds)
    (hcf : d.regs "CF" ≤ 1) (hzf : d.regs "ZF" ≤ 1) (hsf : d.regs "SF" ≤ 1)
    (hof : d.regs "OF" ≤ 1) (hpf : d.regs "PF" ≤ 1) :
    (negate_flag_condition_stores t (api, d)).1.concreteRegisters = api.concreteRegisters ∧
    (∀ n, n ∉ writtenFlags t →
      get_reg_val (negate_flag_condition_stores t (api, d)).2 n = get_reg_val d n) ∧
    (StoresAgreeOn flagId (api, d) (writtenFlags t) →
      ¬ StoresAgreeOn flagId (negate_flag_condition_stores t (api, d)) (writtenFlags t)) := by
  refine ⟨rfl, fun n hn => negate_frame_written t d n hn, ?_⟩
  intro h0 h1
  apply negate_changes_written t d ht hcf hzf hsf hof hpf
  intro f hf
  have e0 := h0 f hf
  have e1 := h1 f hf
  simp only [negate_flag_condition_stores, get_reg_val] at e0 e1
  rw [← e1, e0]

/-- Witness of C14: JE on a state with all flags 0. -/
theorem C14_live_store_only_witness :
    (negate_flag_condition_stores InsType.JE (emptyApi, flagState 0 0 0 0 0)).1.concreteRegisters
      = emptyApi.concreteRegisters ∧
    (∀ n, n ∉ writtenFlags InsType.JE →
      get_reg_val (negate_flag_condition_stores InsType.JE (emptyApi, flagState 0 0 0 0 0)).2 n
        = get_reg_val (flagState 0 0 0 0 0) n) ∧
    (StoresAgreeOn sampleFlagId (emptyApi, flagState 0 0 0 0 0) (writtenFlags InsType.JE) →
      ¬ StoresAgreeOn sampleFlagId
        (negate_flag_condition_stores InsType.JE (emptyApi, flagState 0 0 0 0 0))
        (writtenFlags InsType.JE)) :=
  C14_live_store_only sampleFlagId InsType.JE emptyApi (flagState 0 0 0 0 0) (by decide)
    (by decide) (by decide) (by decide) (by decide) (by decide)

/-- C14 (counterexample).  Engine and live process both hold ZF = 0; after
`negate_flag_condition` for JE the live process holds ZF = 1 and the engine still
holds 0: the two stores do not agree on the negated flag. -/
theorem C14_stores_disagree :
    StoresAgreeOn sampleFlagId (emptyApi, flagState 0 0 0 0 0) (writtenFlags InsType.JE) ∧
    get_reg_val (negate_flag_condition_stores InsType.JE
      (emptyApi, flagState 0 0 0 0 0)).2 "ZF" = 1 ∧
    (negate_flag_condition_stores InsType.JE
      (emptyApi, flagState 0 0 0 0 0)).1.concreteRegisters (sampleFlagId "ZF") = 0 ∧
    ¬ StoresAgreeOn sampleFlagId
      (negate_flag_condition_stores InsType.JE (emptyApi, flagState 0 0 0 0 0))
      (writtenFlags InsType.JE) := by
  refine ⟨?_, by decide, by decide, ?_⟩
  · intro f hf
    simp only [writtenFlags, List.mem_singleton] at hf
    subst hf
    decide
  · intro h
    have h1 := h "ZF" (by decide)
    revert h1
    decide

/-! ### A bound that does not match the address (`solver.cpp`, line 24) -/

/-- C15 (stale bound, amended).  For an in-range bound whose record starts with a
tuple at another address than `pc`, `solve_formula` does not return: the assertion
of line 24 fails, before any formula is built and before the solver is asked, and
the engine is left as it was.  No value reaches the caller. -/
theorem C15_stale_bound_asserts (api : Api) (users : List (Nat × AstNode)) (pc k : Nat)
    (record : Triton.PathConstraint) (first : BranchConstraint)
    (hsize : api.pathConstraints.length < 2 ^ 63) (hint : k < 2 ^ 31)
    (hrec : api.pathConstraints[k]? = some record)
    (hfirst : record.branches[0]? = some first) (hpc : first.srcAddr ≠ pc) :
    solve_formula api users pc (k : Int) = (Outcome.assertFailed, api) ∧
    ∀ v : List Input, (solve_formula api users pc (k : Int)).1 ≠ Outcome.returned v := by
  have hlt : k < api.pathConstraints.length := by
    rcases Nat.lt_or_ge k api.pathConstraints.length with h | h
    · exact h
    · rw [List.getElem?_eq_none h] at hrec
      cases hrec
  have hrej : boundRejected api.pathConstraints.length (k : Int) = false :=
    (boundRejected_pos _ _ (by omega) hsize (by omega) (by omega)).mpr
      ⟨by omega, by omega⟩
  have hres : solve_formula api users pc (k : Int) = (Outcome.assertFailed, api) := by
    unfold solve_formula
    simp only [hrej, toSizeT_natCast k (by omega), hrec,
      Triton.PathConstraint.getBranchConstraints, hfirst]
    simp [hpc]
  refine ⟨hres, ?_⟩
  intro v hv
  rw [hres] at hv
  cases hv

/-- Witness of C15: bound 1 of `sampleApi` asked for with the address `0x1100` of
record 2. -/
theorem C15_stale_bound_asserts_witness :
    solve_formula sampleApi [] 0x1100 ((1 : Nat) : Int) = (Outcome.assertFailed, sampleApi) ∧
    ∀ v : List Input,
      (solve_formula sampleApi [] 0x1100 ((1 : Nat) : Int)).1 ≠ Outcome.returned v :=
  C15_stale_bound_asserts sampleApi [] 0x1100 1
    (twoWay 0x1000 0x1010 0x1020 (AstNode.equal (AstNode.symvar 1) (AstNode.bv 66 8)))
    (BranchConstraint.mk true 0x1000 0x1010 (AstNode.equal (AstNode.symvar 1) (AstNode.bv 66 8)))
    (by simp [sampleApi]) (by norm_num) rfl rfl (by decide)

/-- C15 (counterexample).  Bound 0 of the three-way sample is in range and its
record is at `0x1000`; asked for with `pc = 0x1234`, `solve_formula` ends in the
failed assertion and returns no value at all, so no failure value distinguishable
from the empty result reaches the caller. -/
theorem C15_no_failure_value :
    (solve_formula switchApi [] 0x1234 0).1 = Outcome.assertFailed ∧
    ¬ ∃ v : List Input, (solve_formula switchApi [] 0x1234 0).1 = Outcome.returned v := by
  have h : (solve_formula switchApi [] 0x1234 0).1 = Outcome.assertFailed := by decide
  refine ⟨h, ?_⟩
  rintro ⟨v, hv⟩
  rw [h] at hv
  cases hv

/-! ### Session reset (`callbacks.cpp`, lines 174-229) -/

/-- Whatever the helper does, the log is empty after `triton_restart_engines`: it
is cleared after the call of the helper. -/
theorem triton_restart_engines_log (auto : Session → Session) (s : Session) :
    (triton_restart_engines auto s).log = [] := rfl

theorem keepsResetFields_id : KeepsResetFields id :=
  fun _ => ⟨rfl, rfl, rfl, rfl, rfl, rfl⟩

/-- C16 (session reset, amended).  For every helper
`set_automatic_taint_n_simbolic` and from every state: after
`triton_restart_engines` the log has size 0 and, whatever events follow, the
record at index 0 of the log has bound 0, so the first record appended afterwards
gets bound 0.  The four counters are 0, the trigger is disabled and the list of
pending breakpoint actions is empty in the session handed to the helper on line
227; after the function these fields hold what the helper left, and so are still
0, disabled and empty when the helper does not write them. -/
theorem C16_session_reset (auto : Session → Session) (s : Session) :
    ((triton_restart_engines auto s).log.length = 0 ∧
      (∀ (ops : List Op) (r : PathConstraint),
        (run auto (triton_restart_engines auto s) ops).log[0]? = some r → r.bound = 0)) ∧
    ((sessionAtHelperCall s).ponce_runtime_status.total_number_traced_ins = 0 ∧
      (sessionAtHelperCall s).ponce_runtime_status.total_number_symbolic_ins = 0 ∧
      (sessionAtHelperCall s).ponce_runtime_status.total_number_symbolic_conditions = 0 ∧
      (sessionAtHelperCall s).ponce_runtime_status.current_trace_counter = 0 ∧
      (sessionAtHelperCall s).ponce_runtime_status.runtimeTrigger = false ∧
      (sessionAtHelperCall s).breakpoint_pending_actions = []) ∧
    ((triton_restart_engines auto s).ponce_runtime_status.total_number_traced_ins
        = (auto (sessionAtHelperCall s)).ponce_runtime_status.total_number_traced_ins ∧
      (triton_restart_engines auto s).ponce_runtime_status.total_number_symbolic_ins
        = (auto (sessionAtHelperCall s)).ponce_runtime_status.total_number_symbolic_ins ∧
      (triton_restart_engines auto s).ponce_runtime_status.total_number_symbolic_conditions
        = (auto (sessionAtHelperCall s)).ponce_runtime_status.total_number_symbolic_conditions ∧
      (triton_restart_engines auto s).ponce_runtime_status.current_trace_counter
        = (auto (sessionAtHelperCall s)).ponce_runtime_status.current_trace_counter ∧
      (triton_restart_engines auto s).ponce_runtime_status.runtimeTrigger
        = (auto (sessionAtHelperCall s)).ponce_runtime_status.runtimeTrigger ∧
      (triton_restart_engines auto s).breakpoint_pending_actions
        = (auto (sessionAtHelperCall s)).breakpoint_pending_actions) ∧
    (KeepsResetFields auto →
      (triton_restart_engines auto s).ponce_runtime_status.total_number_traced_ins = 0 ∧
      (triton_restart_engines auto s).ponce_runtime_status.total_number_symbolic_ins = 0 ∧
      (triton_restart_engines auto s).ponce_runtime_status.total_number_symbolic_conditions
        = 0 ∧
      (triton_restart_engines auto s).ponce_runtime_status.current_trace_counter = 0 ∧
      (triton_restart_engines auto s).ponce_runtime_status.runtimeTrigger = false ∧
      (triton_restart_engines auto s).breakpoint_pending_actions = []) := by
  refine ⟨⟨rfl, ?_⟩, ⟨rfl, rfl, rfl, rfl, rfl, rfl⟩, ⟨rfl, rfl, rfl, rfl, rfl, rfl⟩, ?_⟩
  · intro ops r hr
    exact run_boundsMatch auto ops (triton_restart_engines auto s)
      (by
        rw [triton_restart_engines_log]
        exact boundsMatch_nil) 0 r hr
  · intro hkeep
    obtain ⟨h1, h2, h3, h4, h5, h6⟩ := hkeep (sessionAtHelperCall s)
    exact ⟨h3, h4, h5, h6, h2, h1⟩

/-- Witness of C16: the reset of `busySession` with a helper that leaves the session
alone. -/
theorem C16_session_reset_witness :
    (triton_restart_engines id busySession).log.length = 0 ∧
    (∀ (ops : List Op) (r : PathConstraint),
      (run id (triton_restart_engines id busySession) ops).log[0]? = some r → r.bound = 0) ∧
    (triton_restart_engines id busySession).ponce_runtime_status.total_number_traced_ins = 0 ∧
    (triton_restart_engines id busySession).ponce_runtime_status.total_number_symbolic_ins = 0 ∧
    (triton_restart_engines id busySession).ponce_runtime_status.total_number_symbolic_conditions
      = 0 ∧
    (triton_restart_engines id busySession).ponce_runtime_status.current_trace_counter = 0 ∧
    (triton_restart_engines id busySession).ponce_runtime_status.runtimeTrigger = false ∧
    (triton_restart_engines id busySession).breakpoint_pending_actions = [] :=
  ⟨(C16_session_reset id busySession).1.1, (C16_session_reset id busySession).1.2,
    (C16_session_reset id busySession).2.2.2 keepsResetFields_id⟩

/-- C16 (counterexample).  With a helper that registers a pending breakpoint action
when it is called on line 227, after the clear of line 226, the list of pending
breakpoint actions is not empty after `triton_restart_engines`; the log is empty
all the same. -/
theorem C16_pending_list_not_empty :
    (triton_restart_engines registerMainBreakpoint busySession).breakpoint_pending_actions
      = [BreakpointPendingAction.mk 0x401000 false] ∧
    (triton_restart_engines registerMainBreakpoint busySession).breakpoint_pending_actions
      ≠ [] ∧
    (triton_restart_engines registerMainBreakpoint busySession).log = [] := by
  decide

/-- Evaluation of a reset in the middle of a trace: after the reset, the trigger
switched on again and one more symbolized branch, the log holds that one record,
with bound 0. -/
theorem busySession_restart_then_branch :
    (run id busySession [Op.restart, Op.setTrigger true,
      Op.trace (sampleJe false) 0x1000 0]).log = [PathConstraint.mk 7 0x1000 0x1002 0x1020 0] := by
  decide

/-! ### Classification of the operands of a model (`solver.cpp`, lines 82-95) -/

theorem memoryEntries_eq_filter (api : Api) (model : List (Nat × Nat)) :
    (memoryEntries api model).map Prod.fst =
      (model.filter (fun e =>
          decide ((api.symbolicVariable e.1).type = variable_e.MEMORY_VARIABLE))).map
        (fun e => MemoryAccess.mk (api.symbolicVariable e.1).origin
          ((api.symbolicVariable e.1).size / 8)) := by
  induction model with
  | nil => rfl
  | cons e rest ih =>
    unfold memoryEntries at ih ⊢
    cases ht : (api.symbolicVariable e.1).type <;>
      simp [List.filterMap_cons, List.filter_cons, ht, ih]

theorem registerEntries_eq_filter (api : Api) (model : List (Nat × Nat)) :
    (registerEntries api model).map Prod.fst =
      (model.filter (fun e =>
          decide ((api.symbolicVariable e.1).type = variable_e.REGISTER_VARIABLE))).map
        (fun e => Register.mk (api.symbolicVariable e.1).origin) := by
  induction model with
  | nil => rfl
  | cons e rest ih =>
    unfold registerEntries at ih ⊢
    cases ht : (api.symbolicVariable e.1).type <;>
      simp [List.filterMap_cons, List.filter_cons, ht, ih]

theorem entries_length (api : Api) (model : List (Nat × Nat)) :
    (memoryEntries api model).length + (registerEntries api model).length =
      (model.filter (fun e =>
        decide ((api.symbolicVariable e.1).type = variable_e.MEMORY_VARIABLE) ||
        decide ((api.symbolicVariable e.1).type = variable_e.REGISTER_VARIABLE))).length := by
  induction model with
  | nil => rfl
  | cons e rest ih =>
    unfold memoryEntries registerEntries at ih ⊢
    cases ht : (api.symbolicVariable e.1).type <;>
      simp [List.filterMap_cons, List.filter_cons, ht] <;> omega

/-- C17 (operand classification).  For an in-range bound `k`, `solve_formula`
returns, and each returned Input, matched in order with the tuple it was solved
from, has as `memOperand` the cells (origin, size in bits / 8) of exactly the
memory variables of the model of that tuple, in model order, and as `regOperand`
the registers named by the origin of exactly its register variables, in model
order; the two lengths add up to the number of model entries of these two kinds.
Nothing depends on the bit width of a variable. -/
theorem C17_operand_classification (api : Api) (users : List (Nat × AstNode)) (pc k : Nat)
    (record : Triton.PathConstraint) (first : BranchConstraint)
    (hsize : api.pathConstraints.length < 2 ^ 63) (hint : k < 2 ^ 31)
    (hrec : api.pathConstraints[k]? = some record)
    (hfirst : record.branches[0]? = some first) (hpc : first.srcAddr = pc)
    (htaken : ∀ j, j < k → ∃ q, takenPredicateAt api.pathConstraints j = some q) :
    ∃ previous sols, previousConstraints api.pathConstraints users (k : Int)
        = Outcome.returned previous ∧
      (solve_formula api users pc (k : Int)).1 = Outcome.returned sols ∧
      List.Forall₂ (fun i t =>
          i.memOperand =
            ((api.getModel (AstNode.land previous t.constraint)).filter (fun e =>
                decide ((api.symbolicVariable e.1).type = variable_e.MEMORY_VARIABLE))).map
              (fun e => MemoryAccess.mk (api.symbolicVariable e.1).origin
                ((api.symbolicVariable e.1).size / 8)) ∧
          i.regOperand =
            ((api.getModel (AstNode.land previous t.constraint)).filter (fun e =>
                decide ((api.symbolicVariable e.1).type = variable_e.REGISTER_VARIABLE))).map
              (fun e => Register.mk (api.symbolicVariable e.1).origin) ∧
          i.memOperand.length + i.regOperand.length =
            ((api.getModel (AstNode.land previous t.constraint)).filter (fun e =>
              decide ((api.symbolicVariable e.1).type = variable_e.MEMORY_VARIABLE) ||
              decide ((api.symbolicVariable e.1).type
                = variable_e.REGISTER_VARIABLE))).length)
        sols
        (record.branches.filter (fun t => !t.taken &&
          decide (0 < (api.getModel (AstNode.land previous t.constraint)).length))) := by
  obtain ⟨previous, hprev, hsolve⟩ :=
    solve_formula_returns api users pc k record first hsize hint hrec hfirst hpc htaken
  obtain ⟨added, h1, h2, _⟩ :=
    solveBranches_spec api (k : Int) previous record.branches api [] (sameTables_refl api)
  refine ⟨previous, added, hprev, ?_, ?_⟩
  · rw [hsolve]
    simp only [h1, List.nil_append]
  · refine List.Forall₂.imp ?_ h2
    rintro i t ⟨a1, hsame, rfl⟩
    obtain ⟨hm, hr⟩ := applyModel_operands
      (api.getModel (AstNode.land previous t.constraint)) a1 (freshInput (k : Int) t)
    rw [memoryEntries_tables a1 api hsame.2.1] at hm
    rw [registerEntries_tables a1 api hsame.2.1] at hr
    have e1 : (freshInput (k : Int) t).memOperand = [] := rfl
    have e2 : (freshInput (k : Int) t).regOperand = [] := rfl
    rw [e1, List.nil_append] at hm
    rw [e2, List.nil_append] at hr
    refine ⟨?_, ?_, ?_⟩
    · rw [hm, memoryEntries_eq_filter]
    · rw [hr, registerEntries_eq_filter]
    · rw [hm, hr, List.length_map, List.length_map, entries_length]

/-- Witness of C17: bound 1 of `sampleApi`, the `JE` at `0x1000`. -/
theorem C17_operand_classification_witness :
    ∃ previous sols, previousConstraints sampleApi.pathConstraints [] ((1 : Nat) : Int)
        = Outcome.returned previous ∧
      (solve_formula sampleApi [] 0x1000 ((1 : Nat) : Int)).1 = Outcome.returned sols ∧
      List.Forall₂ (fun i t =>
          i.memOperand =
            ((sampleApi.getModel (AstNode.land previous t.constraint)).filter (fun e =>
                decide ((sampleApi.symbolicVariable e.1).type
                  = variable_e.MEMORY_VARIABLE))).map
              (fun e => MemoryAccess.mk (sampleApi.symbolicVariable e.1).origin
                ((sampleApi.symbolicVariable e.1).size / 8)) ∧
          i.regOperand =
            ((sampleApi.getModel (AstNode.land previous t.constraint)).filter (fun e =>
                decide ((sampleApi.symbolicVariable e.1).type
                  = variable_e.REGISTER_VARIABLE))).map
              (fun e => Register.mk (sampleApi.symbolicVariable e.1).origin) ∧
          i.memOperand.length + i.regOperand.length =
            ((sampleApi.getModel (AstNode.land previous t.constraint)).filter (fun e =>
              decide ((sampleApi.symbolicVariable e.1).type = variable_e.MEMORY_VARIABLE) ||
              decide ((sampleApi.symbolicVariable e.1).type
                = variable_e.REGISTER_VARIABLE))).length)
        sols
        ((twoWay 0x1000 0x1010 0x1020
            (AstNode.equal (AstNode.symvar 1) (AstNode.bv 66 8))).branches.filter
          (fun t => !t.taken &&
            decide (0 < (sampleApi.getModel (AstNode.land previous t.constraint)).length))) :=
  C17_operand_classification sampleApi [] 0x1000 1
    (twoWay 0x1000 0x1010 0x1020 (AstNode.equal (AstNode.symvar 1) (AstNode.bv 66 8)))
    (BranchConstraint.mk true 0x1000 0x1010 (AstNode.equal (AstNode.symvar 1) (AstNode.bv 66 8)))
    (by simp [sampleApi]) (by norm_num) rfl rfl rfl sampleApi_taken

/-! ### Outcome codes of `tritonize` and the length assertion (`callbacks.cpp`) -/

/-- A decoded length below `sizeof(opcodes)` passes the assertion, and then
`tritonize` returns one of its three codes. -/
theorem tritonize_returns_below (st : RuntimeStatus) (env : TraceEnv) (pc threadID : Nat)
    (hsize : env.itemSize < OPCODES_SIZE) :
    (tritonize st env pc threadID).1 = Outcome.returned 0 ∨
    (tritonize st env pc threadID).1 = Outcome.returned 1 ∨
    (tritonize st env pc threadID).1 = Outcome.returned 2 := by
  unfold tritonize
  cases st.runtimeTrigger <;> by_cases hpc : pc = 0 <;> cases env.processing <;>
    simp [hpc, hsize]

/-- The outcome codes of `tritonize` where the length assertion passes: it returns
1 exactly when the runtime trigger is off, and then changes no state; with the
trigger on it returns 2 when `pc` is 0; with `pc` not 0 and a decoded length below
`sizeof(opcodes)` it returns 2 when the engine rejects the instruction or throws
and 0 otherwise.  Whenever it returns 1 or 2 the log and the two counters of
symbolic instructions and conditions are unchanged, and an instruction the engine
rejects never appends a record. -/
theorem tritonize_outcome_codes (st : RuntimeStatus) (env : TraceEnv) (pc threadID : Nat) :
    ((tritonize st env pc threadID).1 = Outcome.returned 1 ↔ st.runtimeTrigger = false) ∧
    (st.runtimeTrigger = false → (tritonize st env pc threadID).2 = st) ∧
    (st.runtimeTrigger = true → pc = 0 →
      (tritonize st env pc threadID).1 = Outcome.returned 2) ∧
    (st.runtimeTrigger = true → pc ≠ 0 → env.itemSize < OPCODES_SIZE →
      ((env.processing = Processing.unsupported ∨ env.processing = Processing.exception →
          (tritonize st env pc threadID).1 = Outcome.returned 2) ∧
       (env.processing = Processing.ok →
          (tritonize st env pc threadID).1 = Outcome.returned 0))) ∧
    ((tritonize st env pc threadID).1 = Outcome.returned 1 ∨
        (tritonize st env pc threadID).1 = Outcome.returned 2 →
      (tritonize st env pc threadID).2.myPathConstraints = st.myPathConstraints ∧
      (tritonize st env pc threadID).2.total_number_symbolic_ins
        = st.total_number_symbolic_ins ∧
      (tritonize st env pc threadID).2.total_number_symbolic_conditions
        = st.total_number_symbolic_conditions) ∧
    (env.processing = Processing.unsupported ∨ env.processing = Processing.exception →
      (tritonize st env pc threadID).2.myPathConstraints = st.myPathConstraints) := by
  unfold tritonize
  cases htr : st.runtimeTrigger <;> by_cases hpc : pc = 0 <;>
    by_cases hsize : env.itemSize < OPCODES_SIZE <;> cases hp : env.processing <;>
    simp [hpc, hsize]

/-- The outcome codes at an instruction the engine rejects, trigger on. -/
theorem tritonize_outcome_codes_sample :
    ((tritonize sampleStatus rejectedInstruction 0x1000 0).1 = Outcome.returned 1 ↔
      sampleStatus.runtimeTrigger = false) ∧
    (sampleStatus.runtimeTrigger = false →
      (tritonize sampleStatus rejectedInstruction 0x1000 0).2 = sampleStatus) ∧
    (sampleStatus.runtimeTrigger = true → 0x1000 = 0 →
      (tritonize sampleStatus rejectedInstruction 0x1000 0).1 = Outcome.returned 2) ∧
    (sampleStatus.runtimeTrigger = true → 0x1000 ≠ 0 →
      rejectedInstruction.itemSize < OPCODES_SIZE →
      ((rejectedInstruction.processing = Processing.unsupported ∨
          rejectedInstruction.processing = Processing.exception →
          (tritonize sampleStatus rejectedInstruction 0x1000 0).1 = Outcome.returned 2) ∧
       (rejectedInstruction.processing = Processing.ok →
          (tritonize sampleStatus rejectedInstruction 0x1000 0).1 = Outcome.returned 0))) ∧
    ((tritonize sampleStatus rejectedInstruction 0x1000 0).1 = Outcome.returned 1 ∨
        (tritonize sampleStatus rejectedInstruction 0x1000 0).1 = Outcome.returned 2 →
      (tritonize sampleStatus rejectedInstruction 0x1000 0).2.myPathConstraints
        = sampleStatus.myPathConstraints ∧
      (tritonize sampleStatus rejectedInstruction 0x1000 0).2.total_number_symbolic_ins
        = sampleStatus.total_number_symbolic_ins ∧
      (tritonize sampleStatus rejectedInstruction 0x1000 0).2.total_number_symbolic_conditions
        = sampleStatus.total_number_symbolic_conditions) ∧
    (rejectedInstruction.processing = Processing.unsupported ∨
        rejectedInstruction.processing = Processing.exception →
      (tritonize sampleStatus rejectedInstruction 0x1000 0).2.myPathConstraints
        = sampleStatus.myPathConstraints) :=
  tritonize_outcome_codes sampleStatus rejectedInstruction 0x1000 0

/-- Evaluation of the sample rejected instruction: code 2, nothing appended. -/
theorem rejectedInstruction_code :
    (tritonize sampleStatus rejectedInstruction 0x1000 0).1 = Outcome.returned 2 ∧
    (tritonize sampleStatus rejectedInstruction 0x1000 0).2.myPathConstraints = [] := by
  decide

/-- C18 (failing input).  Trigger on, `pc` not 0, an instruction of the legal
length 15 that the engine would accept: `tritonize` returns none of the codes 0, 1
and 2 of its header comment, the length assertion fails first; the claim says it
returns 0. -/
theorem C18_no_code_when_assertion_fails :
    sampleStatus.runtimeTrigger = true ∧
    ({ sampleJe true with itemSize := 15 } : TraceEnv).processing = Processing.ok ∧
    (tritonize sampleStatus { sampleJe true with itemSize := 15 } 0x1000 0).1
      = Outcome.assertFailed ∧
    (tritonize sampleStatus { sampleJe true with itemSize := 15 } 0x1000 0).1
      ≠ Outcome.returned 0 ∧
    (tritonize sampleStatus { sampleJe true with itemSize := 15 } 0x1000 0).1
      ≠ Outcome.returned 1 ∧
    (tritonize sampleStatus { sampleJe true with itemSize := 15 } 0x1000 0).1
      ≠ Outcome.returned 2 := by
  decide

/-- C19 (failing input).  A legal 15-byte instruction fits the 15-byte buffer
`opcodes`, yet the assertion `item_size < sizeof(opcodes)` is false for it, and
`tritonize` ends in the failed assertion instead of returning a code. -/
theorem C19_longest_instruction_asserts :
    (1 ≤ longestInstruction.itemSize ∧ longestInstruction.itemSize ≤ 15) ∧
    longestInstruction.itemSize ≤ OPCODES_SIZE ∧
    ¬ (longestInstruction.itemSize < OPCODES_SIZE) ∧
    (tritonize sampleStatus longestInstruction 0x1000 0).1 = Outcome.assertFailed ∧
    (∀ code : Int,
      (tritonize sampleStatus longestInstruction 0x1000 0).1 ≠ Outcome.returned code) := by
  have h : (tritonize sampleStatus longestInstruction 0x1000 0).1 = Outcome.assertFailed := by
    decide
  refine ⟨by decide, by decide, by decide, h, ?_⟩
  intro code hc
  rw [h] at hc
  cases hc

end Ponce
